import Mathlib

/-!
Shallow embedding of the battlesnake "strangle" decision engine
(repository `backwardspy/battlesnake-doctor-strangle`).

The embedding follows the newest generation of the sources:
`src/fightsnake/types.rs`, `src/strategies/strangle/board.rs`,
`src/strategies/strangle/snake.rs`, `src/strategies/strangle/game.rs`,
`src/strategies/strangle/score_factors.rs` and
`src/strategies/strangle/brain.rs`.

Machine integers (`i64`, `usize`) are modelled as `Int`/`Nat`; the Rust code
never relies on wrap-around for these quantities.  Fallible operations
(`Result`, panics, `usize::try_from`) are modelled with `Except StepErr`;
a panic that is unreachable on the inputs a theorem talks about is modelled
by a junk-value branch and noted at the definition.
-/

namespace Strangle

/-- `SnakeID` from `src/strategies/strangle/mod.rs` (`type SnakeID = usize`). -/
abbrev SnakeID := Nat

/-- `ME` from `src/strategies/strangle/mod.rs` (`const ME: SnakeID = 0`). -/
def ME : SnakeID := 0

/-- `MAX_HEALTH` (the constants module referenced by `game.rs` defines it;
the value 100 is the one the repository uses, see `const MAX_HEALTH: i64 = 100`
in `src/strategies/strangle.rs`). -/
def MAX_HEALTH : Int := 100

/-- `Coord` from `src/fightsnake/types.rs`: `{ x: i64, y: i64 }`. -/
structure Coord where
  x : Int
  y : Int
deriving DecidableEq, Repr

instance : Inhabited Coord := ⟨⟨0, 0⟩⟩

/-- `Direction` from `src/fightsnake/types.rs`. -/
inductive Direction where
  | left
  | right
  | up
  | down
deriving DecidableEq, Repr

/-- The fixed iteration order of `Direction::iter()` in `types.rs`:
`[Left, Right, Up, Down]`. -/
def Direction.iterList : List Direction :=
  [Direction.left, Direction.right, Direction.up, Direction.down]

/-- `Direction::opposite` from `types.rs`. -/
def Direction.opposite : Direction → Direction
  | Direction.left => Direction.right
  | Direction.right => Direction.left
  | Direction.up => Direction.down
  | Direction.down => Direction.up

/-- `Direction::between` from `types.rs`: dominant-axis direction from `a`
to `b`, vertical axis winning ties, `none` when the coordinates coincide. -/
def Direction.between (a b : Coord) : Option Direction :=
  let dx := b.x - a.x
  let dy := b.y - a.y
  if dx.natAbs > dy.natAbs then
    if dx.sign = 1 then some Direction.right
    else if dx.sign = -1 then some Direction.left
    else none
  else
    if dy.sign = 1 then some Direction.up
    else if dy.sign = -1 then some Direction.down
    else none

/-- `Coord::neighbour` from `types.rs`. -/
def Coord.neighbour (c : Coord) (d : Direction) : Coord :=
  { x := c.x + (match d with
      | Direction.right => 1
      | Direction.left => -1
      | _ => 0),
    y := c.y + (match d with
      | Direction.up => 1
      | Direction.down => -1
      | _ => 0) }

/-- `Board` from `src/strategies/strangle/board.rs`. -/
structure Board where
  width : Int
  height : Int
deriving DecidableEq, Repr

/-- `Board::contains`: half-open bounds check `[0,width) × [0,height)`. -/
def Board.contains (b : Board) (c : Coord) : Bool :=
  decide (0 ≤ c.x) && decide (0 ≤ c.y) && decide (c.x < b.width)
    && decide (c.y < b.height)

/-- `manhattan_distance` from `src/fightsnake/utils.rs`. -/
def manhattanDistance (a b : Coord) : Int :=
  (a.x - b.x).natAbs + (a.y - b.y).natAbs

/-- `Snake` from `src/strategies/strangle/snake.rs`.  The `VecDeque<Coord>`
body is a front-to-back list: `body.head` is the snake's head. -/
structure Snake where
  id : SnakeID
  body : List Coord
  health : Int
deriving DecidableEq, Repr

/-- `snake.body[0]` (panics on an empty body in Rust; junk `(0,0)` here —
every theorem below only evaluates it on non-empty bodies). -/
def Snake.head (s : Snake) : Coord :=
  s.body.getD 0 default

/-- `Snake::facing` from `snake.rs`: `Direction::between(body[1], body[0])`.
Rust panics when the body is shorter than 2; the `getD` defaults stand for
that unreachable panic. -/
def Snake.facing (s : Snake) : Option Direction :=
  Direction.between (s.body.getD 1 default) (s.body.getD 0 default)

/-- `Snake::possible_directions` from `snake.rs`: every direction except the
one equal to `facing().opposite()` (when a facing exists) and except those
whose one-cell head move leaves the board. -/
def Snake.possibleDirections (s : Snake) (b : Board) : List Direction :=
  Direction.iterList.filter fun d =>
    match s.facing with
    | some f =>
        if f.opposite = d then false else b.contains (s.head.neighbour d)
    | none => b.contains (s.head.neighbour d)

/-- `DeathKind` used by `game.rs` and `brain.rs` (`Normal` vs `Honourable`). -/
inductive DeathKind where
  | normal
  | honourable
deriving DecidableEq, Repr

/-- Failure modes of the simulator: `eyre` errors, panics and failed
`usize::try_from` conversions in `game.rs`. -/
inductive StepErr where
  | wrongMoveCount
  | missingMove (id : SnakeID)
  | noBody
  | badSize
  | hazardOffBoard
  | negIndex
deriving DecidableEq, Repr

/-- Death-classification map: `HashMap<SnakeID, DeathKind>` with
insert-overwrites semantics, modelled as an association list where the most
recent insert is consulted first. -/
abbrev DKMap := List (SnakeID × DeathKind)

/-- `Game` from `src/strategies/strangle/game.rs`. -/
structure Game where
  snakes : List Snake
  prev_snakes : List Snake
  food : List Coord
  prev_food : List Coord
  hazards : List Coord
  board : Board
  multisnake : Bool
deriving DecidableEq, Repr

/-- `Game::new` from `game.rs`. -/
def Game.new (snakes : List Snake) (food hazards : List Coord) (board : Board) :
    Game :=
  { snakes := snakes
    prev_snakes := snakes
    food := food
    prev_food := food
    hazards := hazards
    board := board
    multisnake := decide (1 < snakes.length) }

/-- `Game::index`: `usize::try_from(c.x + c.y * width)`, total variant.
The Rust conversion fails on negative values; callers below either check
that case separately or only apply this to contained coordinates. -/
def Game.indexNat (g : Game) (c : Coord) : Nat :=
  (c.x + c.y * g.board.width).toNat

/-- `Game::freespace_index`: `Some(index)` for contained coordinates, `None`
otherwise.  (The `Result` layer of the Rust function can only fail when
`contains` already failed, so it is dropped.) -/
def Game.freespaceIndex (g : Game) (c : Coord) : Option Nat :=
  if g.board.contains c then some (g.indexNat c) else none

/-- One snake body marked into the free-space vector: every body segment
with a valid free-space index is set occupied. -/
def markParts (g : Game) (fs : List Bool) (parts : List Coord) : List Bool :=
  parts.foldl
    (fun acc p =>
      match g.freespaceIndex p with
      | some i => acc.set i false
      | none => acc)
    fs

/-- Hazard marking in `Game::calculate_free_space`: like `markParts`, but a
hazard off the board is the `eyre!("hazards should never be off the
board!")` error. -/
def markHazards (g : Game) (fs : List Bool) : List Coord → Except StepErr (List Bool)
  | [] => Except.ok fs
  | hz :: rest =>
    match g.freespaceIndex hz with
    | some i => markHazards g (fs.set i false) rest
    | none => Except.error StepErr.hazardOffBoard

/-- `Game::calculate_free_space` from `game.rs`: all cells start free, every
snake's body *except its head* (`iter().skip(1)`) is marked occupied, then
every hazard is marked occupied (a hazard off the board is an error). -/
def Game.calcFreeSpace (g : Game) : Except StepErr (List Bool) :=
  let size := g.board.width * g.board.height
  if size < 0 then Except.error StepErr.badSize
  else
    let fs0 := List.replicate size.toNat true
    let fs1 := g.snakes.foldl (fun acc s => markParts g acc (s.body.drop 1)) fs0
    markHazards g fs1 g.hazards

/-- `Game::is_space_free` from `game.rs`. -/
def Game.isSpaceFree (g : Game) (fs : List Bool) (c : Coord) : Bool :=
  match g.freespaceIndex c with
  | some i => fs.getD i false
  | none => false

/-- Step 1 of `Game::step`: pop the tail, push a new head one cell along the
chosen direction, decrement health.  A missing move is the Rust panic
`snake #N didn't provide a move`; a body that is empty after `pop_back` is
the `eyre!("snake without a body")` error. -/
def Snake.moveSnake (moves : List (SnakeID × Direction)) (s : Snake) :
    Except StepErr Snake :=
  match moves.lookup s.id with
  | none => Except.error (StepErr.missingMove s.id)
  | some d =>
    match s.body.dropLast with
    | [] => Except.error StepErr.noBody
    | h :: t =>
        Except.ok { s with body := h.neighbour d :: h :: t, health := s.health - 1 }

/-- Step 2 of `Game::step` (individual elimination): a moved snake survives
iff its health is positive and its new head is on a free, in-bounds cell. -/
def survivesIndividual (g : Game) (fs : List Bool) (s : Snake) : Bool :=
  if s.health ≤ 0 then false
  else
    match g.freespaceIndex s.head with
    | some i => fs.getD i false
    | none => false

/-- Ordered list of index pairs `(ai, bi)` with `ai < bi < n`, exactly the
pairs visited by the nested `enumerate`/`skip(ai + 1)` loops in step 2a. -/
def pairList (n : Nat) : List (Nat × Nat) :=
  (List.range n).flatMap fun ai =>
    (List.range' (ai + 1) (n - (ai + 1))).map fun bi => (ai, bi)

/-- One iteration of the head-to-head loop in step 2a of `Game::step`:
for a pair of surviving snakes with coinciding heads, the strictly shorter
one is marked dead (honourable); on equal lengths only `a` is marked, and
only when `a` is `ME`. -/
def h2hStep (sl : List Snake) (acc : List Bool × DKMap) (p : Nat × Nat) :
    List Bool × DKMap :=
  match sl.get? p.1, sl.get? p.2 with
  | some a, some b =>
    if a.head = b.head then
      if a.body.length = b.body.length then
        if a.id = ME then
          (acc.1.set p.1 false, (a.id, DeathKind.honourable) :: acc.2)
        else acc
      else
        let acc1 :=
          if a.body.length ≤ b.body.length then
            (acc.1.set p.1 false, (a.id, DeathKind.honourable) :: acc.2)
          else acc
        if b.body.length ≤ a.body.length then
          (acc1.1.set p.2 false, (b.id, DeathKind.honourable) :: acc1.2)
        else acc1
    else acc
  | _, _ => acc

/-- Step 2a of `Game::step`: fold the head-to-head resolution over every
index pair, starting from an all-`true` keep vector. -/
def h2h (sl : List Snake) (dk : DKMap) : List Bool × DKMap :=
  (pairList sl.length).foldl (h2hStep sl) (List.replicate sl.length true, dk)

/-- Specification predicate for one head-to-head pair: the condition under
which the iteration for pair `p` marks the snake at position `i` dead.
(This is a restatement of the branches of `h2hStep` used to characterize
the whole fold.) -/
def h2hKills (sl : List Snake) (p : Nat × Nat) (i : Nat) : Prop :=
  ∃ a b, sl.get? p.1 = some a ∧ sl.get? p.2 = some b ∧ a.head = b.head ∧
    ((i = p.1
        ∧ (a.body.length < b.body.length
            ∨ (a.body.length = b.body.length ∧ a.id = ME)))
      ∨ (i = p.2 ∧ b.body.length < a.body.length))

/-- `Vec::retain` driven by a keep mask (the `kill_iter` pattern in
`Game::step`). -/
def maskFilter (sl : List Snake) (keep : List Bool) : List Snake :=
  (sl.zip keep).filterMap fun sk => if sk.2 then some sk.1 else none

/-- Step 3 of `Game::step` for one food cell: the first snake whose head is
on the cell eats it (health reset, tail duplicated) and the cell is removed;
otherwise the cell is kept. -/
def eatStep (acc : List Snake × List Coord) (f : Coord) :
    List Snake × List Coord :=
  match acc.1.findIdx? (fun s => s.head = f) with
  | some i =>
      (acc.1.modify
          (fun s =>
            { s with
              health := MAX_HEALTH
              body := s.body ++ [s.body.getLastD default] })
          i,
        acc.2)
  | none => (acc.1, acc.2 ++ [f])

/-- Step 1 of `Game::step` over the whole snake list, stopping at the first
error. -/
def moveAll (moves : List (SnakeID × Direction)) :
    List Snake → Except StepErr (List Snake)
  | [] => Except.ok []
  | s :: rest =>
    match Snake.moveSnake moves s with
    | Except.error e => Except.error e
    | Except.ok s' =>
      match moveAll moves rest with
      | Except.error e => Except.error e
      | Except.ok rest' => Except.ok (s' :: rest')

/-- `Game::step` from `game.rs`.  Returns the stepped game, the free-space
vector, and the death-classification map, or the first error/panic hit. -/
def Game.step (g : Game) (moves : List (SnakeID × Direction)) :
    Except StepErr (Game × List Bool × DKMap) :=
  if moves.length ≠ g.snakes.length then Except.error StepErr.wrongMoveCount
  else
    match moveAll moves g.snakes with
    | Except.error e => Except.error e
    | Except.ok ms =>
      let g1 : Game := { g with snakes := ms }
      match g1.calcFreeSpace with
      | Except.error e => Except.error e
      | Except.ok fs =>
        let surv1 := ms.filter (survivesIndividual g1 fs)
        let dk1 : DKMap :=
          (ms.filter fun s => !(survivesIndividual g1 fs s)).map
            fun s => (s.id, DeathKind.normal)
        let kdk := h2h surv1 dk1
        let surv2 := maskFilter surv1 kdk.1
        let eaten := g.food.foldl eatStep (surv2, [])
        Except.ok
          ({ g1 with
              snakes := eaten.1
              prev_snakes := ms
              food := eaten.2
              prev_food := g.food },
            fs, kdk.2)

/-- Number of cells not yet visited (used only as a termination measure for
the flood-fill loop). -/
def unvisCount (vis : List Bool) : Nat := vis.count false

/-- Number of queue entries whose cell is already visited (the second
component of the flood-fill termination measure). -/
def visEntries (g : Game) (vis : List Bool) (q : List Coord) : Nat :=
  (q.filter fun c => vis.getD (g.indexNat c) false).length

/-- The neighbours pushed while popping `c` in `Game::floodfill`: in
direction order, those that are free and not yet visited.  (`vis` is the
visited vector *after* marking `c`, exactly as in the Rust loop.) -/
def pushesOf (g : Game) (fs : List Bool) (vis : List Bool) (c : Coord) :
    List Coord :=
  (Direction.iterList.map fun d => c.neighbour d).filter fun nb =>
    g.isSpaceFree fs nb && !(vis.getD (g.indexNat nb) false)

/-- The `while let Some(c) = queue.pop_front()` loop of `Game::floodfill`:
mark the popped cell visited, push its free unvisited neighbours.  The
`g.indexNat c < vis.length` guard is the Rust `visited[index]` bounds check
(an out-of-range index panics there; every queue entry of an actual run is
contained in the board, so the `else` branch is unreachable). -/
def floodfillAux (g : Game) (fs : List Bool) (vis : List Bool)
    (queue : List Coord) : List Bool :=
  if hq : queue = [] then vis
  else
    if hidx : g.indexNat queue.headI < vis.length then
      floodfillAux g fs (vis.set (g.indexNat queue.headI) true)
        (queue.tail
          ++ pushesOf g fs (vis.set (g.indexNat queue.headI) true) queue.headI)
    else vis
termination_by (unvisCount vis, visEntries g vis queue)
decreasing_by
  have hA : ∀ (l : List Bool) (i : Nat), l.getD i false = true →
      l.set i true = l := by
    intro l
    induction l with
    | nil => intro i h; simp [List.getD] at h
    | cons a t ih =>
      intro i h
      cases i with
      | zero => simp [List.getD] at h; simp [List.set, h]
      | succ n =>
        simp only [List.set]
        rw [ih n (by simpa [List.getD] using h)]
  have hB : ∀ (l : List Bool) (i : Nat), i < l.length →
      l.getD i false = false →
      (l.set i true).count false < l.count false := by
    intro l
    induction l with
    | nil => intro i h; simp at h
    | cons a t ih =>
      intro i hi hv
      cases i with
      | zero =>
        simp [List.getD] at hv
        simp [List.set, hv, List.count_cons]
      | succ n =>
        simp only [List.set, List.count_cons]
        have := ih n (by simpa using hi) (by simpa [List.getD] using hv)
        omega
  have hcons : queue.headI :: queue.tail = queue := by
    cases queue with
    | nil => exact absurd rfl hq
    | cons a t => rfl
  by_cases hv : vis.getD (g.indexNat queue.headI) false = true
  · have hset := hA vis (g.indexNat queue.headI) hv
    rw [hset]
    apply Prod.Lex.right
    show visEntries g vis (queue.tail ++ pushesOf g fs vis queue.headI)
        < visEntries g vis queue
    have hpush : (pushesOf g fs vis queue.headI).filter
        (fun x => vis.getD (g.indexNat x) false) = [] := by
      rw [List.filter_eq_nil_iff]
      intro nb hnb
      have := List.of_mem_filter hnb
      simp only [Bool.and_eq_true, Bool.not_eq_true'] at this
      have h2 := this.2
      simp only [List.getD_eq_getElem?_getD] at h2
      simp [h2]
    rw [← hcons]
    simp only [visEntries, List.filter_append, List.length_append, hpush,
      List.length_nil, List.filter_cons, List.tail_cons, hv]
    simp
    intro nb hnb
    have := List.of_mem_filter hnb
    simp only [Bool.and_eq_true, Bool.not_eq_true'] at this
    simpa [List.getD_eq_getElem?_getD] using this.2
  · apply Prod.Lex.left
    exact hB vis (g.indexNat queue.headI) hidx (by simpa using hv)

/-- `Game::floodfill` from `game.rs`: BFS over free cells from `seed`,
returning the number of visited cells.  The two `?` conversions of the Rust
code (a negative board size, a negative seed index) surface as errors. -/
def Game.floodfill (g : Game) (fs : List Bool) (seed : Coord) :
    Except StepErr Int :=
  let size := g.board.width * g.board.height
  if size < 0 then Except.error StepErr.badSize
  else if seed.x + seed.y * g.board.width < 0 then Except.error StepErr.negIndex
  else
    Except.ok
      (((floodfillAux g fs (List.replicate size.toNat false) [seed]).count
        true : Nat) : Int)

/-- Score weights.  `DEPTH_WEIGHT`, the dead base value, and the alive
weights for health/length/opponents are the constants of
`src/strategies/strangle/score_factors.rs`. -/
def DEPTH_WEIGHT : Int := 100

/-- The base score of a normal death (`-100_000_000` in
`score_factors.rs::calculate`). -/
def DEAD_BASE_NORMAL : Int := -100000000

/-- Modelled from the spec: the base score of a self-sacrifice
("honourable") death.  The `DeathKind`-aware revision of `score_factors.rs`
that `game.rs` and `brain.rs` call into is not in the sources (the file
present is an older revision without `DeathKind`); the spec requires a
distinct, strictly less severe (greater) constant than the normal-death
base. -/
def DEAD_BASE_HONOURABLE : Int := -50000000

/-- The winning base value (`10_000_000` in `score_factors.rs`). -/
def WIN_BASE : Int := 10000000

def HEALTH_WEIGHT : Int := 500
def LENGTH_WEIGHT : Int := 1000
/-- Modelled from the spec: weight of the distance to the board center
(negative: being central is better). -/
def CENTER_DIST_WEIGHT : Int := -100
def REMAINING_OPPONENTS_WEIGHT : Int := -10000
/-- Modelled from the spec: weight of the flood-fill reachable-square
count. -/
def AVAILABLE_SQUARES_WEIGHT : Int := 1

/-- Modelled from the spec: the `DeathKind`-aware `ScoreFactors` record used
by `game.rs` (`ScoreFactors::alive`/`::dead`) and `brain.rs`.  Fields follow
the arguments `Game::score` passes: health, body length,
distance-to-center, remaining opponent count, reachable squares, plus the
alive/dead flag with its death classification and the multisnake flag. -/
structure ScoreFactors where
  snake_id : SnakeID
  health : Int
  length : Int
  center_dist : Int
  remaining_opponents : Int
  available_squares : Int
  dead : Bool
  death_kind : DeathKind
  multisnake : Bool
deriving DecidableEq, Repr

/-- `ScoreFactors::dead(snake_id, death_kind, multisnake)` as called from
`game.rs` and `brain.rs`. -/
def ScoreFactors.mkDead (id : SnakeID) (kind : DeathKind) (multisnake : Bool) :
    ScoreFactors :=
  { snake_id := id
    health := 0
    length := 0
    center_dist := 0
    remaining_opponents := 0
    available_squares := 0
    dead := true
    death_kind := kind
    multisnake := multisnake }

/-- `ScoreFactors::alive` as called from `Game::score`. -/
def ScoreFactors.mkAlive (id : SnakeID) (health length center_dist
    remaining_opponents available_squares : Int) (multisnake : Bool) :
    ScoreFactors :=
  { snake_id := id
    health := health
    length := length
    center_dist := center_dist
    remaining_opponents := remaining_opponents
    available_squares := available_squares
    dead := false
    death_kind := DeathKind.normal
    multisnake := multisnake }

/-- `ScoreFactors::calculate(depth)`.  Dead: a base value depending on the
death classification plus `depth * DEPTH_WEIGHT` (die as late as possible).
Won (no opponents left in a multisnake game): a large base minus
`depth * DEPTH_WEIGHT` (win as early as possible).  Otherwise a weighted
linear combination plus `depth * DEPTH_WEIGHT`. -/
def ScoreFactors.calculate (sf : ScoreFactors) (depth : Nat) : Int :=
  if sf.dead then
    (match sf.death_kind with
      | DeathKind.normal => DEAD_BASE_NORMAL
      | DeathKind.honourable => DEAD_BASE_HONOURABLE)
      + (depth : Int) * DEPTH_WEIGHT
  else if sf.remaining_opponents = 0 && sf.multisnake then
    WIN_BASE - (depth : Int) * DEPTH_WEIGHT
  else
    sf.health * HEALTH_WEIGHT + sf.length * LENGTH_WEIGHT
      + sf.center_dist * CENTER_DIST_WEIGHT
      + sf.remaining_opponents * REMAINING_OPPONENTS_WEIGHT
      + sf.available_squares * AVAILABLE_SQUARES_WEIGHT
      + (depth : Int) * DEPTH_WEIGHT

/-- `Vec::contains` on snakes uses `Snake`'s `PartialEq`, which compares ids
only. -/
def Game.containsSnakeId (g : Game) (s : Snake) : Bool :=
  g.snakes.any fun t => t.id == s.id

/-- `Game::score` from `game.rs`: dead snakes (absent from `snakes`) get
`ScoreFactors::dead` with their death classification; live snakes get the
alive factors, with flood-fill run only when at most 4 snakes remain. -/
def Game.score (g : Game) (s : Snake) (fs : List Bool) (kind : DeathKind) :
    Except StepErr ScoreFactors :=
  if !(g.containsSnakeId s) then
    Except.ok (ScoreFactors.mkDead s.id kind g.multisnake)
  else do
    let sq ←
      if g.snakes.length ≤ 4 then g.floodfill fs s.head else Except.ok 0
    let cd := manhattanDistance s.head
      ⟨g.board.width / 2, g.board.height / 2⟩
    Except.ok
      (ScoreFactors.mkAlive s.id s.health (s.body.length : Int) cd
        ((g.snakes.length : Int) - 1) sq g.multisnake)

/-- The word stream `Coord`'s `Hash` feeds the hasher: `x` then `y`. -/
def encodeCoord (c : Coord) : List Int := [c.x, c.y]

/-- The stream a `Vec<T>`'s `Hash` feeds the hasher: a length prefix
followed by the element streams. -/
def encodeList (f : α → List Int) (l : List α) : List Int :=
  ((l.length : Nat) : Int) :: l.flatMap f

/-- The stream of `Snake`'s manual `Hash` impl in `snake.rs`: the id, then
each body coordinate (no length prefix), then the health. -/
def encodeSnake (s : Snake) : List Int :=
  ((s.id : Nat) : Int) :: (s.body.flatMap encodeCoord ++ [s.health])

/-- The full input stream of `Game`'s derived `Hash` (fields in declaration
order: snakes, prev_snakes, food, prev_food, hazards, board, multisnake).
`calculate_hash` in `brain.rs` keys the memo table by `DefaultHasher` run
over exactly this stream; the hasher itself is modelled as injective on its
input stream, so this stream *is* the memo key. -/
def hashInput (g : Game) : List Int :=
  encodeList encodeSnake g.snakes ++ encodeList encodeSnake g.prev_snakes
    ++ encodeList encodeCoord g.food ++ encodeList encodeCoord g.prev_food
    ++ encodeList encodeCoord g.hazards
    ++ [g.board.width, g.board.height]
    ++ [if g.multisnake then 1 else 0]

/-- Per-snake score map (`BigbrainScores = HashMap<SnakeID, ScoreFactors>`),
as an association list consulted front-first. -/
abbrev ScoresMap := List (SnakeID × ScoreFactors)

/-- `BigbrainResult` from `brain.rs`. -/
structure BigbrainResult where
  scores : ScoresMap
  direction : Option Direction
  depth : Nat
deriving DecidableEq, Repr

/-- The memo table `known_scores : HashMap<u64, BigbrainScores>`, keyed by
the (idealized) hash-input stream of the post-step game. -/
abbrev Memo := List (List Int × ScoresMap)

/-- `BigbrainOptions` from `brain.rs` (the `Duration` time limit in abstract
clock units). -/
structure BBOptions where
  maxDepth : Nat
  timeLimit : Nat

/-- The ambient wall clock: `clock k` is `start.elapsed()` as sampled at the
`k`-th entry into `bigbrain` (entries are numbered by the `tick` counter of
`BBState`).  This oracle models the monotone but otherwise arbitrary
real-time clock. -/
structure BBEnv where
  clock : Nat → Nat
  opts : BBOptions

/-- State threaded through the search: the shared memo table and the count
of `bigbrain` entries so far (used to index the clock oracle). -/
structure BBState where
  memo : Memo
  tick : Nat
deriving Repr

/-- Failure modes of `bigbrain`: simulator errors, the
`snake died without a death_kind_map entry` error, panics
(`game.snakes[snake_index]`, `% 0`, missing best score), and exhaustion of
the recursion fuel (the Rust code has no fuel; fuel large enough never runs
out on terminating runs). -/
inductive BBErr where
  | stepErr (e : StepErr)
  | missingDeathKind
  | badSnakeIndex
  | emptySnakes
  | missingBestScore
  | outOfFuel
deriving DecidableEq, Repr

/-- `HashMap::insert` on the move map: replace any entry with the same key,
otherwise append. -/
def mmInsert (m : List (SnakeID × Direction)) (id : SnakeID) (d : Direction) :
    List (SnakeID × Direction) :=
  if (m.lookup id).isSome then
    m.map fun kv => if kv.1 = id then (id, d) else kv
  else m ++ [(id, d)]

/-- `should_exit` from `brain.rs`. -/
def shouldExit (game : Game) (depth maxDepth : Nat) : Bool :=
  !(game.snakes.any fun s => s.id == ME)
    || (game.multisnake && decide (game.snakes.length ≤ 1))
    || decide (depth = maxDepth)

/-- The initial `best_result` score map of the direction loop: every snake
of the current game mapped to the dead-score placeholder. -/
def deadPlaceholders (game : Game) : ScoresMap :=
  game.snakes.map fun s =>
    (s.id, ScoreFactors.mkDead s.id DeathKind.normal game.multisnake)

/-- The terminal score map built when `should_exit` holds after a step:
score every surviving snake, then give every snake of `prev_snakes` that is
missing from the map a dead score with its recorded death classification
(missing classification is the `eyre!` error). -/
def scoreAll (game : Game) (fs : List Bool) :
    List Snake → Except BBErr ScoresMap
  | [] => Except.ok []
  | s :: rest =>
    match game.score s fs DeathKind.normal with
    | Except.error e => Except.error (BBErr.stepErr e)
    | Except.ok sf =>
      match scoreAll game fs rest with
      | Except.error e => Except.error e
      | Except.ok rest' => Except.ok ((s.id, sf) :: rest')

/-- The `for snake in &game.prev_snakes` loop of the terminal-score block in
`brain.rs`. -/
def addDeadScores (game : Game) (dk : DKMap) (acc : ScoresMap) :
    List Snake → Except BBErr ScoresMap
  | [] => Except.ok acc
  | s :: rest =>
    if (List.lookup s.id acc).isSome then addDeadScores game dk acc rest
    else
      match List.lookup s.id dk with
      | some k =>
          addDeadScores game dk
            (acc ++ [(s.id, ScoreFactors.mkDead s.id k game.multisnake)]) rest
      | none => Except.error BBErr.missingDeathKind

def terminalScores (game : Game) (fs : List Bool) (dk : DKMap) :
    Except BBErr ScoresMap :=
  match scoreAll game fs game.snakes with
  | Except.error e => Except.error e
  | Except.ok alive => addDeadScores game dk alive game.prev_snakes

mutual

/-- `bigbrain` from `brain.rs`.  Entry: sample the clock; at or past the
time limit return `none` ("incomplete").  Otherwise look up the active
snake, simulate a step when the cycle returned to `ME` at positive depth
(returning the memoized/fresh terminal scores if `should_exit`), and run
the direction loop. -/
def bigbrain (env : BBEnv) (fuel : Nat) (game : Game) (snakeIndex : Nat)
    (depth : Nat) (moves : List (SnakeID × Direction)) (st : BBState) :
    Except BBErr (Option BigbrainResult × BBState) :=
  if env.opts.timeLimit ≤ env.clock st.tick then
    Except.ok (none, { st with tick := st.tick + 1 })
  else
    match fuel with
    | 0 => Except.error BBErr.outOfFuel
    | Nat.succ fuel' =>
      let st1 : BBState := { st with tick := st.tick + 1 }
      match game.snakes.get? snakeIndex with
      | none => Except.error BBErr.badSnakeIndex
      | some snake0 =>
        if snake0.id = ME ∧ 0 < depth then
          let moves1 := moves.filter fun kv =>
            game.snakes.any fun s => s.id == kv.1
          match game.step moves1 with
          | Except.error e => Except.error (BBErr.stepErr e)
          | Except.ok gfd =>
            if shouldExit gfd.1 depth env.opts.maxDepth then
              match terminalScores gfd.1 gfd.2.1 gfd.2.2 with
              | Except.error e => Except.error e
              | Except.ok fresh =>
                match List.lookup (hashInput gfd.1) st1.memo with
                | some cached =>
                    Except.ok (some ⟨cached, none, depth⟩, st1)
                | none =>
                    Except.ok (some ⟨fresh, none, depth⟩,
                      { st1 with
                          memo := (hashInput gfd.1, fresh) :: st1.memo })
            else bbOuter env fuel' gfd.1 snake0 snakeIndex depth [] st1
        else bbOuter env fuel' game snake0 snakeIndex depth moves st1
termination_by (fuel, 0, 0)

/-- The part of `bigbrain` after the step branch: set up the direction loop
(initial best = dead placeholders, initial direction = `Up`), compute the
next snake index and depth, and wrap the loop's best into an `outer`
result. -/
def bbOuter (env : BBEnv) (fuel : Nat) (game : Game) (snake0 : Snake)
    (snakeIndex depth : Nat) (moves : List (SnakeID × Direction))
    (st : BBState) : Except BBErr (Option BigbrainResult × BBState) :=
  if game.snakes.length = 0 then Except.error BBErr.emptySnakes
  else
    let nextIdx := (snakeIndex + 1) % game.snakes.length
    let nextDepth := if nextIdx = ME then depth + 1 else depth
    match bbLoop env fuel game snake0 nextIdx nextDepth
        (snake0.possibleDirections game.board) moves st false
        ⟨deadPlaceholders game, none, depth⟩ Direction.up with
    | Except.error e => Except.error e
    | Except.ok (none, st') => Except.ok (none, st')
    | Except.ok (some bd, st') =>
        Except.ok (some ⟨bd.1.scores, some bd.2, bd.1.depth⟩, st')
termination_by (fuel, 1, 0)

/-- The `for direction in directions` loop of `bigbrain`: recurse for each
direction, abort on an incomplete recursive result, replace the running
best only on strict improvement (the first result is taken
unconditionally). -/
def bbLoop (env : BBEnv) (fuel : Nat) (game : Game) (snake0 : Snake)
    (nextIdx nextDepth : Nat) (dirs : List Direction)
    (moves : List (SnakeID × Direction)) (st : BBState) (hasBest : Bool)
    (best : BigbrainResult) (bestDir : Direction) :
    Except BBErr (Option (BigbrainResult × Direction) × BBState) :=
  match dirs with
  | [] => Except.ok (some (best, bestDir), st)
  | d :: rest =>
    let moves' := mmInsert moves snake0.id d
    match bigbrain env fuel game nextIdx nextDepth moves' st with
    | Except.error e => Except.error e
    | Except.ok (none, st') => Except.ok (none, st')
    | Except.ok (some result, st') =>
      let scores' :=
        if (List.lookup snake0.id result.scores).isSome then result.scores
        else result.scores
          ++ [(snake0.id,
            ScoreFactors.mkDead snake0.id DeathKind.normal game.multisnake)]
      let result' : BigbrainResult := { result with scores := scores' }
      if hasBest then
        let score :=
          (Option.getD (List.lookup snake0.id scores')
            (ScoreFactors.mkDead snake0.id DeathKind.normal game.multisnake)
            ).calculate result'.depth
        match List.lookup snake0.id best.scores with
        | none => Except.error BBErr.missingBestScore
        | some bsf =>
          if bsf.calculate best.depth < score then
            bbLoop env fuel game snake0 nextIdx nextDepth rest moves' st'
              true result' d
          else
            bbLoop env fuel game snake0 nextIdx nextDepth rest moves' st'
              true best bestDir
      else
        bbLoop env fuel game snake0 nextIdx nextDepth rest moves' st'
          true result' d
termination_by (fuel, 0, dirs.length)

end

/-! ## General helper lemmas -/

theorem moveAll_ok_length (mv : List (SnakeID × Direction)) :
    ∀ (l : List Snake) (ms : List Snake),
      moveAll mv l = Except.ok ms → ms.length = l.length := by
  intro l
  induction l with
  | nil => intro ms h; simp [moveAll] at h; simp [← h]
  | cons s rest ih =>
    intro ms h
    simp only [moveAll] at h
    cases hs : Snake.moveSnake mv s with
    | error e => rw [hs] at h; exact absurd h (by simp)
    | ok s' =>
      rw [hs] at h
      cases hr : moveAll mv rest with
      | error e => rw [hr] at h; exact absurd h (by simp)
      | ok rest' =>
        rw [hr] at h
        cases h
        simp [ih rest' hr]

theorem maskFilter_length_le (sl : List Snake) (keep : List Bool) :
    (maskFilter sl keep).length ≤ sl.length := by
  calc (maskFilter sl keep).length
      ≤ (sl.zip keep).length := List.length_filterMap_le _ _
    _ ≤ sl.length := by rw [List.length_zip]; exact Nat.min_le_left _ _

theorem eatStep_fst_length (acc : List Snake × List Coord) (f : Coord) :
    (eatStep acc f).1.length = acc.1.length := by
  unfold eatStep
  cases h : acc.1.findIdx? fun s => s.head = f with
  | none => simp
  | some i => simp [List.length_modify]

theorem eat_foldl_fst_length (foods : List Coord) :
    ∀ (acc : List Snake × List Coord),
      (foods.foldl eatStep acc).1.length = acc.1.length := by
  induction foods with
  | nil => intro acc; simp
  | cons f rest ih =>
    intro acc
    simp only [List.foldl_cons]
    rw [ih (eatStep acc f), eatStep_fst_length]

/-! ## C7 -/

/-- C7: for every Game and every move map, a successful `step` produces a
game with at most as many snakes as the input (the simulator never
increases the surviving agent count). -/
theorem claim7_step_never_increases_snakes (g : Game)
    (mv : List (SnakeID × Direction)) (out : Game × List Bool × DKMap)
    (h : g.step mv = Except.ok out) :
    out.1.snakes.length ≤ g.snakes.length := by
  unfold Game.step at h
  split at h
  · exact absurd h (by simp)
  · split at h
    next e heq => exact absurd h (by simp)
    next ms hm =>
      dsimp only at h
      split at h
      next e heq => exact absurd h (by simp)
      next fs hf =>
        cases h
        simp only [eat_foldl_fst_length]
        exact le_trans (maskFilter_length_le _ _)
          (le_trans (List.length_filter_le _ _)
            (le_of_eq (moveAll_ok_length mv g.snakes ms hm)))

/-- C7 witness: a concrete successful step on a one-snake game. -/
theorem claim7_witness :
    (Game.new [⟨0, [⟨0, 0⟩, ⟨1, 0⟩], 10⟩] [] [] ⟨3, 3⟩).step
        [(0, Direction.up)] = Except.ok
        ({ snakes := [⟨0, [⟨0, 1⟩, ⟨0, 0⟩], 9⟩]
           prev_snakes := [⟨0, [⟨0, 1⟩, ⟨0, 0⟩], 9⟩]
           food := []
           prev_food := []
           hazards := []
           board := ⟨3, 3⟩
           multisnake := false },
          [false, true, true, true, true, true, true, true, true], [])
      ∧ ([⟨0, [⟨0, 1⟩, ⟨0, 0⟩], 9⟩] : List Snake).length
          ≤ ([⟨0, [⟨0, 0⟩, ⟨1, 0⟩], 10⟩] : List Snake).length := by
  constructor
  · rfl
  · exact claim7_step_never_increases_snakes
      (Game.new [⟨0, [⟨0, 0⟩, ⟨1, 0⟩], 10⟩] [] [] ⟨3, 3⟩) [(0, Direction.up)]
      ({ snakes := [⟨0, [⟨0, 1⟩, ⟨0, 0⟩], 9⟩]
         prev_snakes := [⟨0, [⟨0, 1⟩, ⟨0, 0⟩], 9⟩]
         food := []
         prev_food := []
         hazards := []
         board := ⟨3, 3⟩
         multisnake := false },
        [false, true, true, true, true, true, true, true, true], []) rfl

/-! ## C10 -/

theorem moveAll_short_body_error (mv : List (SnakeID × Direction)) :
    ∀ l : List Snake, (∀ s ∈ l, (mv.lookup s.id).isSome) →
      (∃ s ∈ l, s.body.length ≤ 1) →
      moveAll mv l = Except.error StepErr.noBody := by
  intro l
  induction l with
  | nil => rintro - ⟨s, hs, -⟩; simp at hs
  | cons s rest ih =>
    rintro hlook ⟨w, hw, hwlen⟩
    have hlooks := hlook s (by simp)
    cases hd : mv.lookup s.id with
    | none => rw [hd] at hlooks; simp at hlooks
    | some d =>
      by_cases hshort : s.body.length ≤ 1
      · have hdrop : s.body.dropLast = [] := by
          cases hb : s.body with
          | nil => simp
          | cons a t =>
            cases t with
            | nil => simp
            | cons b t' => rw [hb] at hshort; simp at hshort
        simp [moveAll, Snake.moveSnake, hd, hdrop]
      · have hwrest : w ∈ rest := by
          cases List.mem_cons.1 hw with
          | inl heq => rw [heq] at hwlen; exact absurd hwlen hshort
          | inr h => exact h
        have hrec := ih (fun t ht => hlook t (List.mem_cons_of_mem _ ht))
          ⟨w, hwrest, hwlen⟩
        have hdrop : ∃ a t, s.body.dropLast = a :: t := by
          cases hb : s.body with
          | nil => rw [hb] at hshort; simp at hshort
          | cons a t =>
            cases t with
            | nil => rw [hb] at hshort; simp at hshort
            | cons b t' => exact ⟨a, (b :: t').dropLast, by simp⟩
        obtain ⟨a, t, hdrop⟩ := hdrop
        simp [moveAll, Snake.moveSnake, hd, hdrop, hrec]

/-- C10: a Game containing a snake whose body has exactly one segment makes
`step` fail for every complete move map (the tail is popped before the new
head is read, leaving nothing to read), so no stepped Game is produced. -/
theorem claim10_one_segment_error (g : Game) (mv : List (SnakeID × Direction))
    (hlen : mv.length = g.snakes.length)
    (hcomplete : ∀ s ∈ g.snakes, (mv.lookup s.id).isSome)
    (hshort : ∃ s ∈ g.snakes, s.body.length = 1) :
    g.step mv = Except.error StepErr.noBody := by
  obtain ⟨s, hs, h1⟩ := hshort
  unfold Game.step
  rw [if_neg (by simp [hlen])]
  rw [moveAll_short_body_error mv g.snakes hcomplete ⟨s, hs, by omega⟩]

/-- C10 witness: a single-segment snake with a complete move map. -/
theorem claim10_witness :
    ((([(0, Direction.up)] : List (SnakeID × Direction)).length
        = (Game.new [⟨0, [⟨0, 0⟩], 10⟩] [] [] ⟨3, 3⟩).snakes.length)
      ∧ (Game.new [⟨0, [⟨0, 0⟩], 10⟩] [] [] ⟨3, 3⟩).step [(0, Direction.up)]
          = Except.error StepErr.noBody) :=
  ⟨by rfl, claim10_one_segment_error _ _ (by rfl)
    (by decide) ⟨⟨0, [⟨0, 0⟩], 10⟩, by decide, by decide⟩⟩

/-! ## C5 -/

/-- C5 (the `DeathKind`-aware `ScoreFactors` is modelled from the spec):
the score of an agent absent from the survivors is the death-kind base
constant plus `depth * DEPTH_WEIGHT`; the self-sacrifice base is strictly
greater (less severe) than the normal base, and for a fixed kind a
strictly deeper death scores strictly higher. -/
theorem claim5_dead_score (g : Game) (s : Snake) (fs : List Bool)
    (kind : DeathKind) (d1 d2 : Nat) (habsent : g.containsSnakeId s = false)
    (hdepth : d1 < d2) :
    g.score s fs kind = Except.ok (ScoreFactors.mkDead s.id kind g.multisnake)
    ∧ (ScoreFactors.mkDead s.id kind g.multisnake).calculate d1
        = (match kind with
            | DeathKind.normal => DEAD_BASE_NORMAL
            | DeathKind.honourable => DEAD_BASE_HONOURABLE)
          + (d1 : Int) * DEPTH_WEIGHT
    ∧ DEAD_BASE_NORMAL < DEAD_BASE_HONOURABLE
    ∧ (ScoreFactors.mkDead s.id kind g.multisnake).calculate d1
        < (ScoreFactors.mkDead s.id kind g.multisnake).calculate d2 := by
  refine ⟨by simp [Game.score, habsent], rfl, by decide, ?_⟩
  have hd : (d1 : Int) < (d2 : Int) := by exact_mod_cast hdepth
  simp only [ScoreFactors.calculate, ScoreFactors.mkDead, DEPTH_WEIGHT]
  cases kind <;> simp <;> omega

/-- C5 witness: a concrete dead snake in a concrete game, at depths 1 < 2. -/
theorem claim5_witness :
    ((Game.new [⟨0, [⟨1, 1⟩], 10⟩] [] [] ⟨3, 3⟩).containsSnakeId
        ⟨7, [⟨0, 0⟩], 4⟩ = false)
    ∧ (1 : Nat) < 2
    ∧ ((Game.new [⟨0, [⟨1, 1⟩], 10⟩] [] [] ⟨3, 3⟩).score ⟨7, [⟨0, 0⟩], 4⟩ []
        DeathKind.honourable
        = Except.ok (ScoreFactors.mkDead 7 DeathKind.honourable false)
      ∧ (ScoreFactors.mkDead 7 DeathKind.honourable false).calculate 1
          = DEAD_BASE_HONOURABLE + (1 : Int) * DEPTH_WEIGHT
      ∧ DEAD_BASE_NORMAL < DEAD_BASE_HONOURABLE
      ∧ (ScoreFactors.mkDead 7 DeathKind.honourable false).calculate 1
          < (ScoreFactors.mkDead 7 DeathKind.honourable false).calculate 2) :=
  ⟨by decide, by decide,
    claim5_dead_score (Game.new [⟨0, [⟨1, 1⟩], 10⟩] [] [] ⟨3, 3⟩)
      ⟨7, [⟨0, 0⟩], 4⟩ [] DeathKind.honourable 1 2 (by decide) (by decide)⟩

/-! ## C6 -/

/-- C6: for a snake with at least two body segments and an inferable facing
`f` (from its first two segments), the legal directions are exactly the
four compass directions minus the neck reversal `f.opposite` and minus
those whose one-cell head move leaves the board. -/
theorem claim6_possible_directions (s : Snake) (b : Board) (f : Direction)
    (hlen : 2 ≤ s.body.length) (hf : s.facing = some f) :
    ∀ d : Direction, d ∈ s.possibleDirections b ↔
      (d ≠ f.opposite ∧ b.contains (s.head.neighbour d) = true) := by
  intro d
  have hall : d ∈ Direction.iterList := by
    cases d <;> simp [Direction.iterList]
  simp only [Snake.possibleDirections, List.mem_filter, hf]
  by_cases he : f.opposite = d
  · simp [he]
  · simp [he, hall, Ne.symm he]

/-- C6 witness: a snake facing right on a 3×3 board; `up` is legal. -/
theorem claim6_witness :
    (2 ≤ (⟨5, [⟨1, 1⟩, ⟨0, 1⟩], 10⟩ : Snake).body.length)
    ∧ ((⟨5, [⟨1, 1⟩, ⟨0, 1⟩], 10⟩ : Snake).facing = some Direction.right)
    ∧ (Direction.up ∈
          (⟨5, [⟨1, 1⟩, ⟨0, 1⟩], 10⟩ : Snake).possibleDirections ⟨3, 3⟩
        ↔ (Direction.up ≠ Direction.right.opposite
            ∧ (⟨3, 3⟩ : Board).contains
                ((⟨5, [⟨1, 1⟩, ⟨0, 1⟩], 10⟩ : Snake).head.neighbour
                  Direction.up) = true)) :=
  ⟨by decide, by decide,
    claim6_possible_directions ⟨5, [⟨1, 1⟩, ⟨0, 1⟩], 10⟩ ⟨3, 3⟩
      Direction.right (by decide) (by decide) Direction.up⟩

/-! ## C1 counterexample -/

/-- C1 fails on the code: two equal-length snakes (ids 1 and 2, neither
`ME`) move head-on into the same cell `(2,2)`; the claim requires both to
be eliminated with a normal-death classification, but `step` keeps both
(the equal-length branch of the head-to-head loop only ever kills `ME`)
and records no death classification at all. -/
theorem claim1_counterexample :
    ((Game.new [⟨1, [⟨1, 2⟩, ⟨0, 2⟩], 10⟩, ⟨2, [⟨3, 2⟩, ⟨4, 2⟩], 10⟩]
        [] [] ⟨5, 5⟩).step
      [(1, Direction.right), (2, Direction.left)]).map
      (fun out =>
        (out.1.snakes.map fun s => s.id,
          out.1.snakes.map fun s => s.head,
          out.1.snakes.map fun s => s.body.length,
          out.2.2))
      = Except.ok ([1, 2], [⟨2, 2⟩, ⟨2, 2⟩], [2, 2], []) := by rfl

/-! ## C2 counterexample -/

/-- C2 fails on the code: after a solo snake on a 3×3 board moves up, its
surviving head occupies `(0,1)` (free-space index 3), yet the computed
free-space leaves that cell free — `calculate_free_space` skips each
snake's head (`iter().skip(1)`), so the claimed "occupied iff some body
segment *including the head* lies there" does not hold. -/
theorem claim2_counterexample :
    ((Game.new [⟨0, [⟨0, 0⟩, ⟨1, 0⟩], 10⟩] [] [] ⟨3, 3⟩).step
      [(0, Direction.up)]).map
      (fun out => (out.1.snakes.map fun s => s.head, out.2.1.getD 3 false))
      = Except.ok ([⟨0, 1⟩], true) := by rfl

/-! ## C4 -/

/-- C4 fails on the code: two `step` results that agree on snakes, food,
hazards, board and the multisnake flag (one reached by eating a food pellet
this turn, one not) still hash differently, because the derived `Hash` of
`Game` also feeds `prev_snakes` and `prev_food` — the pre-step snapshot —
into the hasher.  So equal snake lists / food / hazard sets do not imply an
equal memo key, and such transpositions are not shared. -/
theorem claim4_counterexample :
    (match
        (Game.new [⟨0, [⟨1, 1⟩, ⟨1, 0⟩], 5⟩] [⟨1, 2⟩] [] ⟨4, 4⟩).step
          [(0, Direction.up)],
        (Game.new [⟨0, [⟨1, 1⟩, ⟨1, 1⟩, ⟨2, 1⟩], 101⟩] [] [] ⟨4, 4⟩).step
          [(0, Direction.up)] with
      | Except.ok oa, Except.ok ob =>
          oa.1.snakes = ob.1.snakes ∧ oa.1.food = ob.1.food
            ∧ oa.1.hazards = ob.1.hazards ∧ oa.1.board = ob.1.board
            ∧ oa.1.multisnake = ob.1.multisnake
            ∧ hashInput oa.1 ≠ hashInput ob.1
      | _, _ => False) := by
  constructor
  · rfl
  · exact ⟨rfl, rfl, rfl, rfl, by decide⟩

/-- C4 amended: the memo key is a content hash of the *entire* post-step
`Game` value — agent ids/bodies/healths, the retained pre-step snapshot
(`prev_snakes`, `prev_food`), food, hazards, board and multisnake flag.
Keys agree whenever all of these agree; as the counterexample shows, the
fields named by the original claim are not enough. -/
theorem claim4_amended_full_content_hash (g1 g2 : Game)
    (hs : g1.snakes = g2.snakes) (hps : g1.prev_snakes = g2.prev_snakes)
    (hf : g1.food = g2.food) (hpf : g1.prev_food = g2.prev_food)
    (hh : g1.hazards = g2.hazards) (hb : g1.board = g2.board)
    (hm : g1.multisnake = g2.multisnake) :
    hashInput g1 = hashInput g2 := by
  unfold hashInput
  rw [hs, hps, hf, hpf, hh, hb, hm]

/-- C4 witness: the amended congruence applied to two games written from
the same field values. -/
theorem claim4_witness :
    hashInput (Game.new [⟨0, [⟨1, 1⟩], 9⟩] [⟨2, 2⟩] [⟨0, 2⟩] ⟨4, 4⟩)
      = hashInput
        { snakes := [⟨0, [⟨1, 1⟩], 9⟩]
          prev_snakes := [⟨0, [⟨1, 1⟩], 9⟩]
          food := [⟨2, 2⟩]
          prev_food := [⟨2, 2⟩]
          hazards := [⟨0, 2⟩]
          board := ⟨4, 4⟩
          multisnake := false } :=
  claim4_amended_full_content_hash _ _ rfl rfl rfl rfl rfl rfl (by decide)

/-! ## C3 -/

/-- C3: the deadline is honoured cooperatively.  (i) A `bigbrain` call whose
entry-time clock sample has reached the time limit returns the incomplete
outcome (`none`, no result and hence no direction) immediately.  (ii) A
direction loop whose recursive call returns incomplete itself returns
incomplete without examining the remaining directions.  (iii) An enclosing
`bigbrain` invocation whose direction loop returned incomplete returns
incomplete as well, so no direction is produced from an incomplete pass. -/
theorem claim3_deadline_unwinds :
    (∀ (env : BBEnv) (fuel : Nat) (game : Game) (snakeIndex depth : Nat)
        (moves : List (SnakeID × Direction)) (st : BBState),
        env.opts.timeLimit ≤ env.clock st.tick →
        bigbrain env fuel game snakeIndex depth moves st
          = Except.ok (none, { st with tick := st.tick + 1 }))
    ∧ (∀ (env : BBEnv) (fuel : Nat) (game : Game) (snake0 : Snake)
        (nextIdx nextDepth : Nat) (d : Direction) (rest : List Direction)
        (moves : List (SnakeID × Direction)) (st : BBState) (hasBest : Bool)
        (best : BigbrainResult) (bestDir : Direction) (st' : BBState),
        bigbrain env fuel game nextIdx nextDepth (mmInsert moves snake0.id d) st
          = Except.ok (none, st') →
        bbLoop env fuel game snake0 nextIdx nextDepth (d :: rest) moves st
          hasBest best bestDir = Except.ok (none, st'))
    ∧ (∀ (env : BBEnv) (fuel : Nat) (game : Game) (snake0 : Snake)
        (snakeIndex depth : Nat) (moves : List (SnakeID × Direction))
        (st st' : BBState),
        game.snakes.length ≠ 0 →
        bbLoop env fuel game snake0 ((snakeIndex + 1) % game.snakes.length)
          (if ((snakeIndex + 1) % game.snakes.length) = ME then depth + 1
            else depth)
          (snake0.possibleDirections game.board) moves st false
          ⟨deadPlaceholders game, none, depth⟩ Direction.up
          = Except.ok (none, st') →
        bbOuter env fuel game snake0 snakeIndex depth moves st
          = Except.ok (none, st')) := by
  refine ⟨?_, ?_, ?_⟩
  · intro env fuel game snakeIndex depth moves st h
    rw [bigbrain.eq_def]
    simp [h]
  · intro env fuel game snake0 nextIdx nextDepth d rest moves st hasBest
      best bestDir st' h
    rw [bbLoop.eq_def]
    simp [h]
  · intro env fuel game snake0 snakeIndex depth moves st st' hne h
    rw [bbOuter.eq_def]
    simp only [if_neg hne]
    rw [h]

/-- C3 witness: a concrete expired-deadline call returns the incomplete
outcome. -/
theorem claim3_witness :
    ((⟨fun _ => 5, ⟨1, 3⟩⟩ : BBEnv).opts.timeLimit
        ≤ (⟨fun _ => 5, ⟨1, 3⟩⟩ : BBEnv).clock (0 : Nat))
    ∧ bigbrain ⟨fun _ => 5, ⟨1, 3⟩⟩ 7
        (Game.new [⟨0, [⟨0, 0⟩, ⟨1, 0⟩], 10⟩] [] [] ⟨3, 3⟩) 0 0 [] ⟨[], 0⟩
        = Except.ok (none, ⟨[], 1⟩) :=
  ⟨by decide,
    claim3_deadline_unwinds.1 ⟨fun _ => 5, ⟨1, 3⟩⟩ 7
      (Game.new [⟨0, [⟨0, 0⟩, ⟨1, 0⟩], 10⟩] [] [] ⟨3, 3⟩) 0 0 [] ⟨[], 0⟩
      (by decide)⟩

/-! ## C9 -/

/-- C9: when the active agent's legal-direction list is empty and no step
occurs at this node (as at the root call), the search neither fails nor
aborts: it returns a completed result whose direction is the
initialization default `Up` and whose score map assigns every snake of the
current game the dead-score placeholder. -/
theorem claim9_trapped_returns_up (env : BBEnv) (fuel : Nat) (game : Game)
    (snakeIndex depth : Nat) (moves : List (SnakeID × Direction))
    (st : BBState) (snake0 : Snake)
    (htime : env.clock st.tick < env.opts.timeLimit)
    (hsnake : game.snakes.get? snakeIndex = some snake0)
    (hnostep : ¬(snake0.id = ME ∧ 0 < depth))
    (hne : game.snakes.length ≠ 0)
    (hdirs : snake0.possibleDirections game.board = []) :
    bigbrain env (fuel + 1) game snakeIndex depth moves st
      = Except.ok
          (some ⟨deadPlaceholders game, some Direction.up, depth⟩,
            { st with tick := st.tick + 1 }) := by
  rw [bigbrain.eq_def]
  rw [if_neg (by omega)]
  simp only [hsnake]
  rw [if_neg hnostep]
  rw [bbOuter.eq_def]
  rw [if_neg hne]
  rw [hdirs]
  dsimp only
  rw [bbLoop.eq_def]

/-- C9 witness: a stacked two-segment snake on a 1×1 board has no legal
directions; the root call returns `Up` with the dead-score placeholder. -/
theorem claim9_witness :
    ((⟨fun _ => 0, ⟨1, 10⟩⟩ : BBEnv).clock 0
        < (⟨fun _ => 0, ⟨1, 10⟩⟩ : BBEnv).opts.timeLimit)
    ∧ ((⟨0, [⟨0, 0⟩, ⟨0, 0⟩], 5⟩ : Snake).possibleDirections ⟨1, 1⟩ = [])
    ∧ bigbrain ⟨fun _ => 0, ⟨1, 10⟩⟩ 100
        (Game.new [⟨0, [⟨0, 0⟩, ⟨0, 0⟩], 5⟩] [] [] ⟨1, 1⟩) 0 0 [] ⟨[], 0⟩
        = Except.ok
            (some ⟨deadPlaceholders
                (Game.new [⟨0, [⟨0, 0⟩, ⟨0, 0⟩], 5⟩] [] [] ⟨1, 1⟩),
              some Direction.up, 0⟩,
              ⟨[], 1⟩) :=
  ⟨by decide, by decide,
    claim9_trapped_returns_up ⟨fun _ => 0, ⟨1, 10⟩⟩ 99
      (Game.new [⟨0, [⟨0, 0⟩, ⟨0, 0⟩], 5⟩] [] [] ⟨1, 1⟩) 0 0 [] ⟨[], 0⟩
      ⟨0, [⟨0, 0⟩, ⟨0, 0⟩], 5⟩ (by decide) (by decide) (by decide)
      (by decide) (by decide)⟩

/-! ## C1 amended -/

theorem getD_set_false_iff (l : List Bool) (j i : Nat) :
    (l.set j false).getD i true = false ↔
      ((i = j ∧ j < l.length) ∨ l.getD i true = false) := by
  induction l generalizing i j with
  | nil => simp [List.set]
  | cons a t ih =>
    cases j with
    | zero =>
      cases i with
      | zero => simp [List.set, List.getD]
      | succ m => simp [List.set, List.getD]
    | succ n =>
      cases i with
      | zero => simp [List.set, List.getD]
      | succ m =>
        simp only [List.set, List.getD_cons_succ, List.length_cons, ih]
        constructor
        · rintro (⟨rfl, hlt⟩ | hf)
          · exact Or.inl ⟨rfl, by omega⟩
          · exact Or.inr hf
        · rintro (⟨heq, hlt⟩ | hf)
          · exact Or.inl ⟨by omega, by omega⟩
          · exact Or.inr hf

theorem h2hStep_fst_length (sl : List Snake) (acc : List Bool × DKMap)
    (p : Nat × Nat) : (h2hStep sl acc p).1.length = acc.1.length := by
  unfold h2hStep
  split
  · split
    · split
      · split <;> simp
      · dsimp only
        split <;> split <;> simp
    · rfl
  · rfl

theorem h2hStep_keep_iff (sl : List Snake) (acc : List Bool × DKMap)
    (p : Nat × Nat) (i : Nat) (hlen : acc.1.length = sl.length) :
    ((h2hStep sl acc p).1.getD i true = false ↔
      (acc.1.getD i true = false ∨ h2hKills sl p i)) := by
  have hget : ∀ {k : Nat} {s : Snake}, sl.get? k = some s → k < sl.length :=
    fun h => List.get?_eq_some.1 h |>.1
  unfold h2hStep h2hKills
  cases ha : sl.get? p.1 with
  | none => simp [ha]
  | some a =>
    cases hb : sl.get? p.2 with
    | none => simp [ha, hb]
    | some b =>
      simp only [ha, hb]
      by_cases hhead : a.head = b.head
      · rw [if_pos hhead]
        by_cases heq : a.body.length = b.body.length
        · rw [if_pos heq]
          by_cases hme : a.id = ME
          · rw [if_pos hme]
            simp only [getD_set_false_iff, hlen]
            constructor
            · rintro (⟨rfl, hlt⟩ | hf)
              · exact Or.inr ⟨a, b, rfl, rfl, hhead, Or.inl ⟨rfl, Or.inr ⟨heq, hme⟩⟩⟩
              · exact Or.inl hf
            · rintro (hf | ⟨a', b', ha', hb', hhead', hcase⟩)
              · exact Or.inr hf
              · rw [Option.some_inj] at ha' hb'
                subst ha'; subst hb'
                rcases hcase with ⟨rfl, hc⟩ | ⟨rfl, hc⟩
                · exact Or.inl ⟨rfl, hget ha⟩
                · omega
          · rw [if_neg hme]
            constructor
            · exact fun hf => Or.inl hf
            · rintro (hf | ⟨a', b', ha', hb', hhead', hcase⟩)
              · exact hf
              · rw [Option.some_inj] at ha' hb'
                subst ha'; subst hb'
                rcases hcase with ⟨rfl, hc | ⟨-, hc⟩⟩ | ⟨rfl, hc⟩
                · omega
                · exact absurd hc hme
                · omega
        · rw [if_neg heq]
          by_cases hab : a.body.length ≤ b.body.length
          · have hba : ¬(b.body.length ≤ a.body.length) := by omega
            rw [if_pos hab]
            simp only [if_neg hba]
            simp only [getD_set_false_iff, hlen]
            constructor
            · rintro (⟨rfl, hlt⟩ | hf)
              · exact Or.inr ⟨a, b, rfl, rfl, hhead, Or.inl ⟨rfl, Or.inl (by omega)⟩⟩
              · exact Or.inl hf
            · rintro (hf | ⟨a', b', ha', hb', hhead', hcase⟩)
              · exact Or.inr hf
              · rw [Option.some_inj] at ha' hb'
                subst ha'; subst hb'
                rcases hcase with ⟨rfl, hc⟩ | ⟨rfl, hc⟩
                · exact Or.inl ⟨rfl, hget ha⟩
                · omega
          · have hba : b.body.length ≤ a.body.length := by omega
            rw [if_neg hab]
            rw [if_pos hba]
            simp only [getD_set_false_iff, hlen]
            constructor
            · rintro (⟨rfl, hlt⟩ | hf)
              · exact Or.inr ⟨a, b, rfl, rfl, hhead, Or.inr ⟨rfl, by omega⟩⟩
              · exact Or.inl hf
            · rintro (hf | ⟨a', b', ha', hb', hhead', hcase⟩)
              · exact Or.inr hf
              · rw [Option.some_inj] at ha' hb'
                subst ha'; subst hb'
                rcases hcase with ⟨rfl, hc⟩ | ⟨rfl, hc⟩
                · rcases hc with hc | ⟨hc, -⟩ <;> omega
                · exact Or.inl ⟨rfl, hget hb⟩
      · rw [if_neg hhead]
        constructor
        · exact fun hf => Or.inl hf
        · rintro (hf | ⟨a', b', ha', hb', hhead', -⟩)
          · exact hf
          · rw [Option.some_inj] at ha' hb'
            subst ha'; subst hb'
            exact absurd hhead' hhead

theorem h2h_foldl_keep_iff (sl : List Snake) (i : Nat) :
    ∀ (ps : List (Nat × Nat)) (acc : List Bool × DKMap),
      acc.1.length = sl.length →
      ((ps.foldl (h2hStep sl) acc).1.getD i true = false ↔
        (acc.1.getD i true = false ∨ ∃ p ∈ ps, h2hKills sl p i)) := by
  intro ps
  induction ps with
  | nil => intro acc hlen; simp
  | cons p rest ih =>
    intro acc hlen
    simp only [List.foldl_cons]
    rw [ih (h2hStep sl acc p) (by rw [h2hStep_fst_length]; exact hlen)]
    rw [h2hStep_keep_iff sl acc p i hlen]
    constructor
    · rintro ((hf | hk) | ⟨q, hq, hk⟩)
      · exact Or.inl hf
      · exact Or.inr ⟨p, by simp, hk⟩
      · exact Or.inr ⟨q, by simp [hq], hk⟩
    · rintro (hf | ⟨q, hq, hk⟩)
      · exact Or.inl (Or.inl hf)
      · rcases List.mem_cons.1 hq with rfl | hq'
        · exact Or.inl (Or.inr hk)
        · exact Or.inr ⟨q, hq', hk⟩

theorem mem_pairList (n : Nat) (p : Nat × Nat) :
    p ∈ pairList n ↔ p.1 < p.2 ∧ p.2 < n := by
  cases p with
  | mk a b =>
    unfold pairList
    simp only [List.mem_flatMap, List.mem_map, List.mem_range, List.mem_range'_1]
    constructor
    · rintro ⟨ai, hai, bi, ⟨h1, h2⟩, heq⟩
      cases heq
      exact ⟨by omega, by omega⟩
    · rintro ⟨hab, hbn⟩
      exact ⟨a, by omega, b, ⟨by omega, by omega⟩, rfl⟩

theorem h2hStep_dk_superset (sl : List Snake) (acc : List Bool × DKMap)
    (p : Nat × Nat) (e : SnakeID × DeathKind) (he : e ∈ acc.2) :
    e ∈ (h2hStep sl acc p).2 := by
  unfold h2hStep
  split
  · split
    · split
      · split <;> simp [he]
      · dsimp only
        split <;> split <;> simp [he]
    · exact he
  · exact he

theorem h2hStep_dk_new_honourable (sl : List Snake) (acc : List Bool × DKMap)
    (p : Nat × Nat) (e : SnakeID × DeathKind)
    (he : e ∈ (h2hStep sl acc p).2) : e ∈ acc.2 ∨ e.2 = DeathKind.honourable := by
  unfold h2hStep at he
  split at he
  · split at he
    · split at he
      · split at he
        · rcases List.mem_cons.1 he with rfl | h
          · exact Or.inr rfl
          · exact Or.inl h
        · exact Or.inl he
      · dsimp only at he
        split_ifs at he <;> (try simp only [List.mem_cons] at he) <;>
          first
          | (rcases he with rfl | rfl | h
             · exact Or.inr rfl
             · exact Or.inr rfl
             · exact Or.inl h)
          | (rcases he with rfl | h
             · exact Or.inr rfl
             · exact Or.inl h)
          | exact Or.inl he
    · exact Or.inl he
  · exact Or.inl he

theorem h2hStep_dk_records (sl : List Snake) (acc : List Bool × DKMap)
    (p : Nat × Nat) (i : Nat) (s : Snake) (hs : sl.get? i = some s)
    (hk : h2hKills sl p i) :
    (s.id, DeathKind.honourable) ∈ (h2hStep sl acc p).2 := by
  obtain ⟨a, b, ha, hb, hhead, hcase⟩ := hk
  unfold h2hStep
  rw [ha, hb]
  dsimp only
  rw [if_pos hhead]
  rcases hcase with ⟨rfl, hc⟩ | ⟨rfl, hc⟩
  · rw [ha] at hs
    rw [Option.some_inj] at hs
    subst hs
    rcases hc with hc | ⟨hc, hme⟩
    · rw [if_neg (by omega : ¬(a.body.length = b.body.length))]
      try dsimp only
      rw [if_neg (by omega : ¬(b.body.length ≤ a.body.length))]
      rw [if_pos (by omega : a.body.length ≤ b.body.length)]
      simp
    · rw [if_pos hc, if_pos hme]
      simp
  · rw [hb] at hs
    rw [Option.some_inj] at hs
    subst hs
    rw [if_neg (by omega : ¬(a.body.length = b.body.length))]
    try dsimp only
    rw [if_pos (by omega : b.body.length ≤ a.body.length)]
    simp

theorem h2h_foldl_dk_superset (sl : List Snake) :
    ∀ (ps : List (Nat × Nat)) (acc : List Bool × DKMap)
      (e : SnakeID × DeathKind), e ∈ acc.2 →
      e ∈ (ps.foldl (h2hStep sl) acc).2 := by
  intro ps
  induction ps with
  | nil => intro acc e he; exact he
  | cons p rest ih =>
    intro acc e he
    exact ih (h2hStep sl acc p) e (h2hStep_dk_superset sl acc p e he)

theorem h2h_foldl_dk_new (sl : List Snake) :
    ∀ (ps : List (Nat × Nat)) (acc : List Bool × DKMap)
      (e : SnakeID × DeathKind), e ∈ (ps.foldl (h2hStep sl) acc).2 →
      e ∈ acc.2 ∨ e.2 = DeathKind.honourable := by
  intro ps
  induction ps with
  | nil => intro acc e he; exact Or.inl he
  | cons p rest ih =>
    intro acc e he
    rcases ih (h2hStep sl acc p) e he with h | h
    · exact h2hStep_dk_new_honourable sl acc p e h
    · exact Or.inr h

theorem h2h_foldl_dk_records (sl : List Snake) (i : Nat) (s : Snake)
    (hs : sl.get? i = some s) :
    ∀ (ps : List (Nat × Nat)) (acc : List Bool × DKMap),
      (∃ p ∈ ps, h2hKills sl p i) →
      (s.id, DeathKind.honourable) ∈ (ps.foldl (h2hStep sl) acc).2 := by
  intro ps
  induction ps with
  | nil => rintro acc ⟨p, hp, -⟩; simp at hp
  | cons p rest ih =>
    rintro acc ⟨q, hq, hk⟩
    rcases List.mem_cons.1 hq with rfl | hq'
    · exact h2h_foldl_dk_superset sl rest (h2hStep sl acc q) _
        (h2hStep_dk_records sl acc q i s hs hk)
    · exact ih (h2hStep sl acc p) ⟨q, hq', hk⟩

/-- C1 amended: in the head-to-head phase run on the survivors list,
(1) the snake at position `i` is marked dead iff some other snake's new
head coincides with its own and that snake is strictly longer, or the two
have equal length, `i` precedes the other in the list and the snake at `i`
is self — so a strictly shorter snake in a colliding pair dies, an
equal-length pair with self (listed first) kills exactly self, and an
equal-length pair of two non-self snakes kills neither; (2) every
classification this phase adds is the self-sacrifice ("honourable") kind,
never the normal kind; (3) every snake it marks dead gets such an
honourable entry. -/
theorem claim1_amended_head_to_head (sl : List Snake) (dk : DKMap) (i : Nat)
    (hi : i < sl.length) :
    ((h2h sl dk).1.getD i true = false ↔
      ∃ j, ∃ hj : j < sl.length, j ≠ i
        ∧ (sl.get ⟨j, hj⟩).head = (sl.get ⟨i, hi⟩).head
        ∧ ((sl.get ⟨i, hi⟩).body.length < (sl.get ⟨j, hj⟩).body.length
            ∨ ((sl.get ⟨i, hi⟩).body.length = (sl.get ⟨j, hj⟩).body.length
                ∧ i < j ∧ (sl.get ⟨i, hi⟩).id = ME)))
    ∧ (∀ e ∈ (h2h sl dk).2, e ∈ dk ∨ e.2 = DeathKind.honourable)
    ∧ ((h2h sl dk).1.getD i true = false →
        ((sl.get ⟨i, hi⟩).id, DeathKind.honourable) ∈ (h2h sl dk).2) := by
  have hchar : (h2h sl dk).1.getD i true = false ↔
      ∃ p ∈ pairList sl.length, h2hKills sl p i := by
    unfold h2h
    rw [h2h_foldl_keep_iff sl i (pairList sl.length)
      (List.replicate sl.length true, dk) (by simp)]
    have hrep : (List.replicate sl.length true).getD i true = true := by
      rcases Nat.lt_or_ge i sl.length with hlt | hge
      · simp [List.getD_eq_getElem?_getD, List.getElem?_replicate, hlt]
      · simp [List.getD_eq_getElem?_getD, List.getElem?_eq_none,
          Nat.le_trans (List.length_replicate _ _).le hge]
    simp [hrep]
  have hiff : (∃ p ∈ pairList sl.length, h2hKills sl p i) ↔
      ∃ j, ∃ hj : j < sl.length, j ≠ i
        ∧ (sl.get ⟨j, hj⟩).head = (sl.get ⟨i, hi⟩).head
        ∧ ((sl.get ⟨i, hi⟩).body.length < (sl.get ⟨j, hj⟩).body.length
            ∨ ((sl.get ⟨i, hi⟩).body.length = (sl.get ⟨j, hj⟩).body.length
                ∧ i < j ∧ (sl.get ⟨i, hi⟩).id = ME)) := by
    constructor
    · rintro ⟨p, hp, a, b, ha, hb, hhead, hcase⟩
      have hp1 : p.1 < sl.length := (List.get?_eq_some.1 ha).1
      have hp2 : p.2 < sl.length := (List.get?_eq_some.1 hb).1
      have ha' : sl.get ⟨p.1, hp1⟩ = a := by
        have := List.get?_eq_get hp1
        rw [ha] at this; exact (Option.some_inj.1 this.symm)
      have hb' : sl.get ⟨p.2, hp2⟩ = b := by
        have := List.get?_eq_get hp2
        rw [hb] at this; exact (Option.some_inj.1 this.symm)
      have hlt := (mem_pairList sl.length p).1 hp
      rcases hcase with ⟨rfl, hc⟩ | ⟨rfl, hc⟩
      · refine ⟨p.2, hp2, by omega, ?_, ?_⟩
        · rw [hb']
          rw [show sl.get ⟨p.1, hp1⟩ = a from ha'] at *
          exact hhead.symm
        · rw [ha', hb']
          rcases hc with hc | ⟨hc, hme⟩
          · exact Or.inl hc
          · exact Or.inr ⟨hc, by omega, hme⟩
      · refine ⟨p.1, hp1, by omega, ?_, Or.inl ?_⟩
        · rw [ha', hb']
          exact hhead
        · rw [ha', hb']
          exact hc
    · rintro ⟨j, hj, hne, hhead, hcase⟩
      set si := sl.get ⟨i, hi⟩ with hsi
      set sj := sl.get ⟨j, hj⟩ with hsj
      have hgi : sl.get? i = some si := by rw [List.get?_eq_get hi]
      have hgj : sl.get? j = some sj := by rw [List.get?_eq_get hj]
      rcases hcase with hlt | ⟨heq, hij, hme⟩
      · rcases Nat.lt_or_ge i j with hij | hji
        · exact ⟨(i, j), (mem_pairList _ _).2 ⟨hij, hj⟩,
            si, sj, hgi, hgj, hhead.symm, Or.inl ⟨rfl, Or.inl hlt⟩⟩
        · have hji' : j < i := by omega
          exact ⟨(j, i), (mem_pairList _ _).2 ⟨hji', hi⟩,
            sj, si, hgj, hgi, hhead, Or.inr ⟨rfl, hlt⟩⟩
      · exact ⟨(i, j), (mem_pairList _ _).2 ⟨hij, hj⟩,
          si, sj, hgi, hgj, hhead.symm, Or.inl ⟨rfl, Or.inr ⟨heq, hme⟩⟩⟩
  refine ⟨hchar.trans hiff, ?_, ?_⟩
  · intro e he
    exact h2h_foldl_dk_new sl (pairList sl.length) _ e he
  · intro hdead
    exact h2h_foldl_dk_records sl i _ (List.get?_eq_get hi)
      (pairList sl.length) _ (hchar.1 hdead)

/-- C1 witness: self (id 0, length 2) collides head-on with a strictly
longer rival (length 3): the characterization marks self dead and records
an honourable classification for it. -/
theorem claim1_witness :
    (0 : Nat) < ([⟨0, [⟨2, 2⟩, ⟨2, 1⟩], 9⟩,
        ⟨1, [⟨2, 2⟩, ⟨3, 2⟩, ⟨3, 3⟩], 9⟩] : List Snake).length
    ∧ ((0 : SnakeID), DeathKind.honourable) ∈
        (h2h [⟨0, [⟨2, 2⟩, ⟨2, 1⟩], 9⟩,
          ⟨1, [⟨2, 2⟩, ⟨3, 2⟩, ⟨3, 3⟩], 9⟩] []).2 := by
  refine ⟨by decide, ?_⟩
  exact (claim1_amended_head_to_head
    [⟨0, [⟨2, 2⟩, ⟨2, 1⟩], 9⟩, ⟨1, [⟨2, 2⟩, ⟨3, 2⟩, ⟨3, 3⟩], 9⟩] [] 0
    (by decide)).2.2 (by decide)

/-! ## C2 amended -/

theorem getD_set_false_iff' (l : List Bool) (j i : Nat) :
    (l.set j false).getD i false = false ↔
      ((i = j ∧ j < l.length) ∨ l.getD i false = false) := by
  induction l generalizing i j with
  | nil => simp [List.set]
  | cons a t ih =>
    cases j with
    | zero =>
      cases i with
      | zero => simp [List.set, List.getD]
      | succ m => simp [List.set, List.getD]
    | succ n =>
      cases i with
      | zero => simp [List.set, List.getD]
      | succ m =>
        simp only [List.set, List.getD_cons_succ, List.length_cons, ih]
        constructor
        · rintro (⟨rfl, hlt⟩ | hf)
          · exact Or.inl ⟨rfl, by omega⟩
          · exact Or.inr hf
        · rintro (⟨heq, hlt⟩ | hf)
          · exact Or.inl ⟨by omega, by omega⟩
          · exact Or.inr hf

theorem markParts_cons (g : Game) (p : Coord) (rest : List Coord)
    (fs : List Bool) :
    markParts g fs (p :: rest)
      = markParts g
          (match g.freespaceIndex p with
            | some i => fs.set i false
            | none => fs) rest := rfl

theorem markParts_length (g : Game) :
    ∀ (parts : List Coord) (fs : List Bool),
      (markParts g fs parts).length = fs.length := by
  intro parts
  induction parts with
  | nil => intro fs; rfl
  | cons p rest ih =>
    intro fs
    rw [markParts_cons]
    cases hp : g.freespaceIndex p with
    | none => exact ih fs
    | some j => exact (ih (fs.set j false)).trans (by simp)

theorem markParts_getD_iff (g : Game) :
    ∀ (parts : List Coord) (fs : List Bool) (i : Nat),
      ((markParts g fs parts).getD i false = false ↔
        (fs.getD i false = false
          ∨ (i < fs.length ∧ ∃ p ∈ parts, g.freespaceIndex p = some i))) := by
  intro parts
  induction parts with
  | nil => simp [markParts]
  | cons p rest ih =>
    intro fs i
    rw [markParts_cons]
    cases hp : g.freespaceIndex p with
    | none =>
      dsimp only
      rw [ih fs i]
      constructor
      · rintro (hf | ⟨hlt, q, hq, hiq⟩)
        · exact Or.inl hf
        · exact Or.inr ⟨hlt, q, List.mem_cons_of_mem _ hq, hiq⟩
      · rintro (hf | ⟨hlt, q, hq, hiq⟩)
        · exact Or.inl hf
        · rcases List.mem_cons.1 hq with rfl | hq'
          · rw [hp] at hiq; exact absurd hiq (by simp)
          · exact Or.inr ⟨hlt, q, hq', hiq⟩
    | some j =>
      dsimp only
      rw [ih (fs.set j false) i]
      rw [getD_set_false_iff']
      simp only [List.length_set]
      constructor
      · rintro ((⟨rfl, hlt⟩ | hf) | ⟨hlt, q, hq, hiq⟩)
        · exact Or.inr ⟨hlt, p, by simp, by rw [hp]⟩
        · exact Or.inl hf
        · exact Or.inr ⟨hlt, q, List.mem_cons_of_mem _ hq, hiq⟩
      · rintro (hf | ⟨hlt, q, hq, hiq⟩)
        · exact Or.inl (Or.inr hf)
        · rcases List.mem_cons.1 hq with rfl | hq'
          · rw [hp] at hiq
            rw [Option.some_inj] at hiq
            exact Or.inl (Or.inl ⟨hiq.symm, hiq.symm ▸ hlt⟩)
          · exact Or.inr ⟨hlt, q, hq', hiq⟩

theorem snakesFold_length (g : Game) :
    ∀ (ss : List Snake) (fs : List Bool),
      ((ss.foldl (fun acc s => markParts g acc (s.body.drop 1)) fs).length
        = fs.length) := by
  intro ss
  induction ss with
  | nil => intro fs; rfl
  | cons s rest ih =>
    intro fs
    simp only [List.foldl_cons]
    rw [ih (markParts g fs (s.body.drop 1)), markParts_length]

theorem snakesFold_getD_iff (g : Game) :
    ∀ (ss : List Snake) (fs : List Bool) (i : Nat),
      (((ss.foldl (fun acc s => markParts g acc (s.body.drop 1)) fs).getD i
          false = false) ↔
        (fs.getD i false = false
          ∨ (i < fs.length ∧ ∃ s ∈ ss, ∃ p ∈ s.body.drop 1,
              g.freespaceIndex p = some i))) := by
  intro ss
  induction ss with
  | nil => simp
  | cons s rest ih =>
    intro fs i
    simp only [List.foldl_cons]
    rw [ih (markParts g fs (s.body.drop 1)) i]
    rw [markParts_getD_iff]
    simp only [markParts_length]
    constructor
    · rintro ((hf | ⟨hlt, q, hq, hiq⟩) | ⟨hlt, t, ht, q, hq, hiq⟩)
      · exact Or.inl hf
      · exact Or.inr ⟨hlt, s, by simp, q, hq, hiq⟩
      · exact Or.inr ⟨hlt, t, List.mem_cons_of_mem _ ht, q, hq, hiq⟩
    · rintro (hf | ⟨hlt, t, ht, q, hq, hiq⟩)
      · exact Or.inl (Or.inl hf)
      · rcases List.mem_cons.1 ht with rfl | ht'
        · exact Or.inl (Or.inr ⟨hlt, q, hq, hiq⟩)
        · exact Or.inr ⟨hlt, t, ht', q, hq, hiq⟩

theorem markHazards_ok_length (g : Game) :
    ∀ (hz : List Coord) (fs out : List Bool),
      markHazards g fs hz = Except.ok out → out.length = fs.length := by
  intro hz
  induction hz with
  | nil => intro fs out h; simp [markHazards] at h; simp [← h]
  | cons z rest ih =>
    intro fs out h
    simp only [markHazards] at h
    cases hz0 : g.freespaceIndex z with
    | none => rw [hz0] at h; exact absurd h (by simp)
    | some j =>
      rw [hz0] at h
      rw [ih (fs.set j false) out h]
      simp

theorem markHazards_ok_getD_iff (g : Game) :
    ∀ (hz : List Coord) (fs out : List Bool) (i : Nat),
      markHazards g fs hz = Except.ok out →
      (out.getD i false = false ↔
        (fs.getD i false = false
          ∨ (i < fs.length ∧ ∃ z ∈ hz, g.freespaceIndex z = some i))) := by
  intro hz
  induction hz with
  | nil =>
    intro fs out i h
    simp [markHazards] at h
    simp [← h]
  | cons z rest ih =>
    intro fs out i h
    simp only [markHazards] at h
    cases hz0 : g.freespaceIndex z with
    | none => rw [hz0] at h; exact absurd h (by simp)
    | some j =>
      rw [hz0] at h
      rw [ih (fs.set j false) out i h]
      rw [getD_set_false_iff']
      simp only [List.length_set]
      constructor
      · rintro ((⟨rfl, hlt⟩ | hf) | ⟨hlt, q, hq, hiq⟩)
        · exact Or.inr ⟨hlt, z, by simp, by rw [hz0]⟩
        · exact Or.inl hf
        · exact Or.inr ⟨hlt, q, List.mem_cons_of_mem _ hq, hiq⟩
      · rintro (hf | ⟨hlt, q, hq, hiq⟩)
        · exact Or.inl (Or.inr hf)
        · rcases List.mem_cons.1 hq with rfl | hq'
          · rw [hz0] at hiq
            rw [Option.some_inj] at hiq
            exact Or.inl (Or.inl ⟨hiq.symm, hiq.symm ▸ hlt⟩)
          · exact Or.inr ⟨hlt, q, hq', hiq⟩

theorem toNat_lt_toNat_of_lt (a b : Int) (ha : 0 ≤ a) (hab : a < b) :
    a.toNat < b.toNat := by omega

theorem indexNat_lt_size (g : Game) (c : Coord)
    (hc : g.board.contains c = true) :
    g.indexNat c < (g.board.width * g.board.height).toNat := by
  simp only [Board.contains, Bool.and_eq_true, decide_eq_true_eq] at hc
  obtain ⟨⟨⟨hx0, hy0⟩, hxw⟩, hyh⟩ := hc
  have h1 : c.y * g.board.width ≤ (g.board.height - 1) * g.board.width :=
    mul_le_mul_of_nonneg_right (by omega) (by omega)
  have h2 : c.x + c.y * g.board.width < g.board.width * g.board.height := by
    nlinarith
  exact toNat_lt_toNat_of_lt _ _ (by nlinarith) h2

theorem indexNat_inj (g : Game) (c d : Coord)
    (hc : g.board.contains c = true) (hd : g.board.contains d = true)
    (heq : g.indexNat c = g.indexNat d) : c = d := by
  simp only [Board.contains, Bool.and_eq_true, decide_eq_true_eq] at hc hd
  obtain ⟨⟨⟨hcx0, hcy0⟩, hcxw⟩, hcyh⟩ := hc
  obtain ⟨⟨⟨hdx0, hdy0⟩, hdxw⟩, hdyh⟩ := hd
  have hw : 0 < g.board.width := by omega
  have key : ∀ A B : Int, 0 ≤ A → 0 ≤ B → A.toNat = B.toNat → A = B := by
    intro A B h1 h2 h3; omega
  have heq' : c.x + c.y * g.board.width = d.x + d.y * g.board.width :=
    key _ _ (by nlinarith) (by nlinarith) heq
  have hy : c.y = d.y := by
    rcases lt_trichotomy c.y d.y with h | h | h
    · exfalso
      have : (d.y - c.y) * g.board.width ≥ 1 * g.board.width :=
        mul_le_mul_of_nonneg_right (by omega) (by omega)
      nlinarith
    · exact h
    · exfalso
      have : (c.y - d.y) * g.board.width ≥ 1 * g.board.width :=
        mul_le_mul_of_nonneg_right (by omega) (by omega)
      nlinarith
  have hx : c.x = d.x := by
    rw [hy] at heq'
    omega
  cases c; cases d
  simp_all

theorem freespaceIndex_eq_iff (g : Game) (c p : Coord)
    (hc : g.board.contains c = true) :
    g.freespaceIndex p = some (g.indexNat c) ↔ p = c := by
  constructor
  · intro h
    unfold Game.freespaceIndex at h
    by_cases hp : g.board.contains p = true
    · rw [if_pos hp] at h
      rw [Option.some_inj] at h
      exact indexNat_inj g p c hp hc h
    · rw [if_neg hp] at h
      exact absurd h (by simp)
  · rintro rfl
    unfold Game.freespaceIndex
    rw [if_pos hc]

/-- C2 amended: for a successful `calculate_free_space`, an in-bounds cell
is occupied (not free) iff some just-moved agent's body segment *other
than its head* lies on it, or some hazard lies on it; and an agent
survives individual elimination iff its health is positive and its new
head is on a free in-bounds cell (`is_space_free` is false for any
out-of-bounds head). -/
theorem claim2_amended_free_space (g : Game) (fs : List Bool)
    (hok : g.calcFreeSpace = Except.ok fs) (c : Coord)
    (hc : g.board.contains c = true) :
    (fs.getD (g.indexNat c) false = false ↔
      ((∃ s ∈ g.snakes, c ∈ s.body.drop 1) ∨ c ∈ g.hazards))
    ∧ (∀ s : Snake, survivesIndividual g fs s
        = (decide (0 < s.health) && g.isSpaceFree fs s.head)) := by
  constructor
  · have hwh : ¬(g.board.width * g.board.height < 0) := by
      simp only [Board.contains, Bool.and_eq_true, decide_eq_true_eq] at hc
      nlinarith [hc.1.1.1, hc.1.1.2, hc.1.2, hc.2]
    unfold Game.calcFreeSpace at hok
    rw [if_neg hwh] at hok
    have hilt := indexNat_lt_size g c hc
    have hrep : (List.replicate (g.board.width * g.board.height).toNat
        true).getD (g.indexNat c) false = true := by
      simp [List.getD_eq_getElem?_getD, List.getElem?_replicate, hilt]
    rw [markHazards_ok_getD_iff g g.hazards _ fs (g.indexNat c) hok]
    rw [snakesFold_getD_iff]
    simp only [hrep, List.length_replicate, snakesFold_length]
    constructor
    · rintro ((hf | ⟨-, s, hs, p, hp, hip⟩) | ⟨-, z, hz, hiz⟩)
      · simp at hf
      · have hpc : p = c := (freespaceIndex_eq_iff g c p hc).1 hip
        exact Or.inl ⟨s, hs, hpc ▸ hp⟩
      · have hzc : z = c := (freespaceIndex_eq_iff g c z hc).1 hiz
        exact Or.inr (hzc ▸ hz)
    · rintro (⟨s, hs, hmem⟩ | hmem)
      · exact Or.inl (Or.inr ⟨hilt, s, hs, c, hmem,
          (freespaceIndex_eq_iff g c c hc).2 rfl⟩)
      · exact Or.inr ⟨hilt, c, hmem, (freespaceIndex_eq_iff g c c hc).2 rfl⟩
  · intro s
    unfold survivesIndividual Game.isSpaceFree
    by_cases hh : s.health ≤ 0
    · rw [if_pos hh]
      have : ¬(0 < s.health) := by omega
      simp [this]
    · rw [if_neg hh]
      have : (0 < s.health) := by omega
      simp [this]

/-- C2 witness: in the concrete ok run of `calculate_free_space` for a
just-moved snake `[(0,1),(0,0)]` on 3×3, cell `(0,0)` (the non-head
segment) is occupied. -/
theorem claim2_witness :
    ((Game.new [⟨0, [⟨0, 1⟩, ⟨0, 0⟩], 9⟩] [] [] ⟨3, 3⟩).calcFreeSpace
      = Except.ok [false, true, true, true, true, true, true, true, true])
    ∧ ([false, true, true, true, true, true, true, true, true].getD
        ((Game.new [⟨0, [⟨0, 1⟩, ⟨0, 0⟩], 9⟩] [] [] ⟨3, 3⟩).indexNat ⟨0, 0⟩)
        false = false ↔
      ((∃ s ∈ (Game.new [⟨0, [⟨0, 1⟩, ⟨0, 0⟩], 9⟩] [] [] ⟨3, 3⟩).snakes,
          (⟨0, 0⟩ : Coord) ∈ s.body.drop 1)
        ∨ (⟨0, 0⟩ : Coord) ∈
            (Game.new [⟨0, [⟨0, 1⟩, ⟨0, 0⟩], 9⟩] [] [] ⟨3, 3⟩).hazards)) :=
  ⟨by rfl,
    (claim2_amended_free_space (Game.new [⟨0, [⟨0, 1⟩, ⟨0, 0⟩], 9⟩] [] [] ⟨3, 3⟩)
      [false, true, true, true, true, true, true, true, true] (by rfl)
      ⟨0, 0⟩ (by decide)).1⟩

/-! ## C8 -/

theorem getD_set_true_mono (l : List Bool) (j i : Nat)
    (h : l.getD i false = true) : (l.set j true).getD i false = true := by
  induction l generalizing i j with
  | nil => simp [List.getD] at h
  | cons a t ih =>
    cases j with
    | zero =>
      cases i with
      | zero => simp [List.set, List.getD]
      | succ m => simpa [List.set, List.getD] using h
    | succ n =>
      cases i with
      | zero => simpa [List.set, List.getD] using h
      | succ m =>
        simp only [List.set, List.getD_cons_succ]
        exact ih n m (by simpa [List.getD] using h)

theorem getD_set_ne_bool (l : List Bool) (j i : Nat) (a : Bool)
    (h : i ≠ j) : (l.set j a).getD i false = l.getD i false := by
  induction l generalizing i j with
  | nil => simp [List.set]
  | cons b t ih =>
    cases j with
    | zero =>
      cases i with
      | zero => exact absurd rfl h
      | succ m => simp [List.set, List.getD]
    | succ n =>
      cases i with
      | zero => simp [List.set, List.getD]
      | succ m =>
        simp only [List.set, List.getD_cons_succ]
        exact ih n m (by omega)

theorem getD_set_self_bool (l : List Bool) (j : Nat) (hj : j < l.length) :
    (l.set j true).getD j false = true := by
  induction l generalizing j with
  | nil => simp at hj
  | cons b t ih =>
    cases j with
    | zero => simp [List.set, List.getD]
    | succ n =>
      simp only [List.set, List.getD_cons_succ]
      exact ih n (by simpa using hj)

theorem headI_mem_of_ne_nil (l : List Coord) (h : l ≠ []) : l.headI ∈ l := by
  cases l with
  | nil => exact absurd rfl h
  | cons a t => simp [List.headI]

theorem cons_headI_tail_of_ne_nil (l : List Coord) (h : l ≠ []) :
    l.headI :: l.tail = l := by
  cases l with
  | nil => exact absurd rfl h
  | cons a t => rfl

theorem isSpaceFree_contains (g : Game) (fs : List Bool) (c : Coord)
    (h : g.isSpaceFree fs c = true) : g.board.contains c = true := by
  unfold Game.isSpaceFree Game.freespaceIndex at h
  by_cases hc : g.board.contains c = true
  · exact hc
  · rw [if_neg hc] at h
    simp at h

theorem mem_pushesOf (g : Game) (fs vis : List Bool) (c nb : Coord) :
    nb ∈ pushesOf g fs vis c ↔
      ((∃ d : Direction, nb = c.neighbour d)
        ∧ g.isSpaceFree fs nb = true
        ∧ vis.getD (g.indexNat nb) false = false) := by
  unfold pushesOf
  rw [List.mem_filter]
  simp only [List.mem_map, Bool.and_eq_true, Bool.not_eq_true']
  constructor
  · rintro ⟨⟨d, hd, rfl⟩, hfree, hvis⟩
    exact ⟨⟨d, rfl⟩, hfree, hvis⟩
  · rintro ⟨⟨d, rfl⟩, hfree, hvis⟩
    refine ⟨⟨d, ?_, rfl⟩, hfree, hvis⟩
    cases d <;> simp [Direction.iterList]

theorem floodfillAux_length (g : Game) (fs : List Bool) :
    ∀ (vis : List Bool) (queue : List Coord),
      (floodfillAux g fs vis queue).length = vis.length := by
  intro vis queue
  induction vis, queue using floodfillAux.induct g fs with
  | case1 vis =>
    rw [floodfillAux.eq_def]
    simp
  | case2 vis queue hq hidx ih =>
    rw [floodfillAux.eq_def]
    rw [dif_neg hq, dif_pos hidx]
    rw [ih]
    simp
  | case3 vis queue hq hidx =>
    rw [floodfillAux.eq_def]
    rw [dif_neg hq, dif_neg hidx]

theorem floodfillAux_mono (g : Game) (fs : List Bool) :
    ∀ (vis : List Bool) (queue : List Coord) (i : Nat),
      vis.getD i false = true →
      (floodfillAux g fs vis queue).getD i false = true := by
  intro vis queue
  induction vis, queue using floodfillAux.induct g fs with
  | case1 vis =>
    intro i h
    rw [floodfillAux.eq_def]
    rw [dif_pos rfl]
    exact h
  | case2 vis queue hq hidx ih =>
    intro i h
    rw [floodfillAux.eq_def]
    rw [dif_neg hq, dif_pos hidx]
    exact ih i (getD_set_true_mono _ _ _ h)
  | case3 vis queue hq hidx =>
    intro i h
    rw [floodfillAux.eq_def]
    rw [dif_neg hq, dif_neg hidx]
    exact h

theorem floodfillAux_visits_queue (g : Game) (fs : List Bool) :
    ∀ (vis : List Bool) (queue : List Coord),
      (∀ c ∈ queue, g.board.contains c = true) →
      (∀ c : Coord, g.board.contains c = true →
        g.indexNat c < vis.length) →
      ∀ c ∈ queue,
        (floodfillAux g fs vis queue).getD (g.indexNat c) false = true := by
  intro vis queue
  induction vis, queue using floodfillAux.induct g fs with
  | case1 vis =>
    intro hcont hlen c hc
    simp at hc
  | case2 vis queue hq hidx ih =>
    intro hcont hlen c hc
    rw [floodfillAux.eq_def]
    rw [dif_neg hq, dif_pos hidx]
    have hcont' : ∀ e ∈ queue.tail
        ++ pushesOf g fs (vis.set (g.indexNat queue.headI) true) queue.headI,
        g.board.contains e = true := by
      intro e he
      rcases List.mem_append.1 he with he | he
      · exact hcont e (List.mem_of_mem_tail he)
      · exact isSpaceFree_contains g fs e
          (((mem_pushesOf g fs _ _ _).1 he).2.1)
    have hlen' : ∀ e : Coord, g.board.contains e = true →
        g.indexNat e < (vis.set (g.indexNat queue.headI) true).length := by
      intro e he
      rw [List.length_set]
      exact hlen e he
    by_cases hch : g.indexNat c = g.indexNat queue.headI
    · rw [hch]
      exact floodfillAux_mono g fs _ _ _
        (getD_set_self_bool vis _ hidx)
    · have hctail : c ∈ queue.tail := by
        have := cons_headI_tail_of_ne_nil queue hq
        rw [← this] at hc
        rcases List.mem_cons.1 hc with rfl | h
        · exact absurd rfl hch
        · exact h
      exact ih hcont' hlen' c (List.mem_append.2 (Or.inl hctail))
  | case3 vis queue hq hidx =>
    intro hcont hlen c hc
    exact absurd
      (hlen queue.headI (hcont queue.headI (headI_mem_of_ne_nil queue hq)))
      hidx

theorem floodfillAux_closed (g : Game) (fs : List Bool) :
    ∀ (vis : List Bool) (queue : List Coord),
      (∀ c ∈ queue, g.board.contains c = true) →
      (∀ c : Coord, g.board.contains c = true → g.indexNat c < vis.length) →
      (∀ c : Coord, g.board.contains c = true →
        vis.getD (g.indexNat c) false = true →
        ∀ d : Direction, g.isSpaceFree fs (c.neighbour d) = true →
          (vis.getD (g.indexNat (c.neighbour d)) false = true
            ∨ c.neighbour d ∈ queue)) →
      ∀ c : Coord, g.board.contains c = true →
        (floodfillAux g fs vis queue).getD (g.indexNat c) false = true →
        ∀ d : Direction, g.isSpaceFree fs (c.neighbour d) = true →
          (floodfillAux g fs vis queue).getD (g.indexNat (c.neighbour d))
            false = true := by
  intro vis queue
  induction vis, queue using floodfillAux.induct g fs with
  | case1 vis =>
    intro hcont hlen hinv c hc hvisc d hfree
    rw [floodfillAux.eq_def] at hvisc ⊢
    rw [dif_pos rfl] at hvisc ⊢
    rcases hinv c hc hvisc d hfree with h | h
    · exact h
    · simp at h
  | case2 vis queue hq hidx ih =>
    intro hcont hlen hinv c hc hvisc d hfree
    rw [floodfillAux.eq_def] at hvisc ⊢
    rw [dif_neg hq, dif_pos hidx] at hvisc ⊢
    refine ih ?_ ?_ ?_ c hc hvisc d hfree
    · intro e he
      rcases List.mem_append.1 he with he | he
      · exact hcont e (List.mem_of_mem_tail he)
      · exact isSpaceFree_contains g fs e
          (((mem_pushesOf g fs _ _ _).1 he).2.1)
    · intro e he
      rw [List.length_set]
      exact hlen e he
    · intro e he hVe d' hfree'
      by_cases hei : g.indexNat e = g.indexNat queue.headI
      · have hh : g.board.contains queue.headI = true :=
          hcont queue.headI (headI_mem_of_ne_nil queue hq)
        have heqc : e = queue.headI := indexNat_inj g e queue.headI he hh hei
        by_cases hnb : (vis.set (g.indexNat queue.headI) true).getD
            (g.indexNat (e.neighbour d')) false = true
        · exact Or.inl hnb
        · refine Or.inr (List.mem_append.2 (Or.inr ?_))
          rw [mem_pushesOf]
          refine ⟨⟨d', by rw [heqc]⟩, hfree', ?_⟩
          cases hval : (vis.set (g.indexNat queue.headI) true).getD
              (g.indexNat (e.neighbour d')) false
          · rfl
          · exact absurd hval hnb
      · have hVe' : vis.getD (g.indexNat e) false = true := by
          rw [getD_set_ne_bool vis _ _ _ hei] at hVe
          exact hVe
        rcases hinv e he hVe' d' hfree' with h | h
        · exact Or.inl (getD_set_true_mono _ _ _ h)
        · have hq' := cons_headI_tail_of_ne_nil queue hq
          rw [← hq'] at h
          rcases List.mem_cons.1 h with hnb | hnb
          · left
            rw [hnb]
            exact getD_set_self_bool vis _ hidx
          · exact Or.inr (List.mem_append.2 (Or.inl hnb))
  | case3 vis queue hq hidx =>
    intro hcont hlen hinv c hc hvisc d hfree
    exact absurd
      (hlen queue.headI (hcont queue.headI (headI_mem_of_ne_nil queue hq)))
      hidx

theorem visited_all_of_closed (g : Game) (fs : List Bool) (V : List Bool)
    (seed : Coord) (hseed0 : g.board.contains seed = true)
    (hseedV : V.getD (g.indexNat seed) false = true)
    (hclosed : ∀ c : Coord, g.board.contains c = true →
      V.getD (g.indexNat c) false = true →
      ∀ d : Direction, g.isSpaceFree fs (c.neighbour d) = true →
        V.getD (g.indexNat (c.neighbour d)) false = true)
    (hfree : ∀ c : Coord, g.board.contains c = true →
      g.isSpaceFree fs c = true) :
    ∀ c : Coord, g.board.contains c = true →
      V.getD (g.indexNat c) false = true := by
  have main : ∀ n : Nat, ∀ c : Coord, g.board.contains c = true →
      ((c.x - seed.x).natAbs + (c.y - seed.y).natAbs = n) →
      V.getD (g.indexNat c) false = true := by
    intro n
    induction n with
    | zero =>
      intro c hc hdist
      have hx : c.x = seed.x := by omega
      have hy : c.y = seed.y := by omega
      have hcs : c = seed := by
        cases c; cases seed
        simp_all
      rw [hcs]
      exact hseedV
    | succ n ih =>
      intro c hc hdist
      have hcb := hc
      simp only [Board.contains, Bool.and_eq_true, decide_eq_true_eq] at hcb
      obtain ⟨⟨⟨hx0, hy0⟩, hxw⟩, hyh⟩ := hcb
      have hsb := hseed0
      simp only [Board.contains, Bool.and_eq_true, decide_eq_true_eq] at hsb
      obtain ⟨⟨⟨hsx0, hsy0⟩, hsxw⟩, hsyh⟩ := hsb
      rcases lt_trichotomy c.x seed.x with hxlt | hxeq | hxgt
      · have hc' : g.board.contains ⟨c.x + 1, c.y⟩ = true := by
          simp only [Board.contains, Bool.and_eq_true, decide_eq_true_eq]
          exact ⟨⟨⟨by omega, hy0⟩, by omega⟩, hyh⟩
        have hV' := ih ⟨c.x + 1, c.y⟩ hc' (by simp only []; omega)
        have heq : (⟨c.x + 1, c.y⟩ : Coord).neighbour Direction.left = c := by
          cases c
          simp only [Coord.neighbour, Coord.mk.injEq]
          omega
        have hstep := hclosed ⟨c.x + 1, c.y⟩ hc' hV' Direction.left
          (by rw [heq]; exact hfree c hc)
        rw [heq] at hstep
        exact hstep
      · rcases lt_trichotomy c.y seed.y with hylt | hyeq | hygt
        · have hc' : g.board.contains ⟨c.x, c.y + 1⟩ = true := by
            simp only [Board.contains, Bool.and_eq_true, decide_eq_true_eq]
            exact ⟨⟨⟨hx0, by omega⟩, hxw⟩, by omega⟩
          have hV' := ih ⟨c.x, c.y + 1⟩ hc' (by simp only []; omega)
          have heq : (⟨c.x, c.y + 1⟩ : Coord).neighbour Direction.down = c := by
            cases c
            simp only [Coord.neighbour, Coord.mk.injEq]
            omega
          have hstep := hclosed ⟨c.x, c.y + 1⟩ hc' hV' Direction.down
            (by rw [heq]; exact hfree c hc)
          rw [heq] at hstep
          exact hstep
        · exact absurd hdist (by omega)
        · have hc' : g.board.contains ⟨c.x, c.y - 1⟩ = true := by
            simp only [Board.contains, Bool.and_eq_true, decide_eq_true_eq]
            exact ⟨⟨⟨hx0, by omega⟩, hxw⟩, by omega⟩
          have hV' := ih ⟨c.x, c.y - 1⟩ hc' (by simp only []; omega)
          have heq : (⟨c.x, c.y - 1⟩ : Coord).neighbour Direction.up = c := by
            cases c
            simp only [Coord.neighbour, Coord.mk.injEq]
            omega
          have hstep := hclosed ⟨c.x, c.y - 1⟩ hc' hV' Direction.up
            (by rw [heq]; exact hfree c hc)
          rw [heq] at hstep
          exact hstep
      · have hc' : g.board.contains ⟨c.x - 1, c.y⟩ = true := by
          simp only [Board.contains, Bool.and_eq_true, decide_eq_true_eq]
          exact ⟨⟨⟨by omega, hy0⟩, by omega⟩, hyh⟩
        have hV' := ih ⟨c.x - 1, c.y⟩ hc' (by simp only []; omega)
        have heq : (⟨c.x - 1, c.y⟩ : Coord).neighbour Direction.right = c := by
          cases c
          simp only [Coord.neighbour, Coord.mk.injEq]
          omega
        have hstep := hclosed ⟨c.x - 1, c.y⟩ hc' hV' Direction.right
          (by rw [heq]; exact hfree c hc)
        rw [heq] at hstep
        exact hstep
  intro c hc
  exact main ((c.x - seed.x).natAbs + (c.y - seed.y).natAbs) c hc rfl

theorem count_true_of_all_true (l : List Bool)
    (h : ∀ i, i < l.length → l.getD i false = true) :
    l.count true = l.length := by
  induction l with
  | nil => simp
  | cons a t ih =>
    have ha := h 0 (by simp)
    simp only [List.getD_cons_zero] at ha
    have ht := ih fun i hi => by
      have := h (i + 1) (by simpa using Nat.succ_lt_succ hi)
      simpa [List.getD] using this
    simp [List.count_cons, ha, ht]

theorem exists_coord_of_index (g : Game) (hw : 0 < g.board.width)
    (hh : 0 < g.board.height) (i : Nat)
    (hi : i < (g.board.width * g.board.height).toNat) :
    ∃ c : Coord, g.board.contains c = true ∧ g.indexNat c = i := by
  have hwh : (0 : Int) ≤ g.board.width * g.board.height := by positivity
  have hi' : (i : Int) < g.board.width * g.board.height := by
    have := Int.toNat_of_nonneg hwh
    omega
  refine ⟨⟨Int.emod i g.board.width, Int.ediv i g.board.width⟩, ?_, ?_⟩
  · simp only [Board.contains, Bool.and_eq_true, decide_eq_true_eq]
    refine ⟨⟨⟨Int.emod_nonneg _ (by omega), ?_⟩,
      Int.emod_lt_of_pos _ hw⟩, ?_⟩
    · exact Int.ediv_nonneg (by positivity) (by omega)
    · exact (Int.ediv_lt_iff_lt_mul hw).2 (by nlinarith [hi'])
  · unfold Game.indexNat
    simp only []
    rw [show Int.emod (i : Int) g.board.width
        + Int.ediv (i : Int) g.board.width * g.board.width = (i : Int) from by
      rw [mul_comm]
      exact Int.emod_add_ediv _ _]
    simp

theorem getD_replicate_false (n i : Nat) :
    (List.replicate n false).getD i false = false := by
  rw [List.getD_eq_getElem?_getD, List.getElem?_replicate]
  split <;> rfl

theorem count_set_replicate_false (n i : Nat) (hi : i < n) :
    ((List.replicate n false).set i true).count true = 1 := by
  induction n generalizing i with
  | zero => simp at hi
  | succ m ih =>
    cases i with
    | zero =>
      simp [List.replicate_succ, List.set, List.count_cons,
        List.count_replicate]
    | succ k =>
      simp only [List.replicate_succ, List.set, List.count_cons]
      rw [ih k (by omega)]
      simp

/-- C8: flood-fill (i) from any seed on the board, with a free-space vector
marking every cell free, returns exactly `width * height`; and (ii) from a
seed all of whose neighbours fail `is_space_free` (each is occupied or out
of bounds), returns exactly 1 — the seed is counted regardless of its own
occupancy. -/
theorem claim8_floodfill (g : Game) (seed : Coord)
    (hseed : g.board.contains seed = true) :
    (g.floodfill
        (List.replicate (g.board.width * g.board.height).toNat true) seed
      = Except.ok (g.board.width * g.board.height))
    ∧ (∀ fs : List Bool,
        (∀ d : Direction, g.isSpaceFree fs (seed.neighbour d) = false) →
        g.floodfill fs seed = Except.ok 1) := by
  have hb := hseed
  simp only [Board.contains, Bool.and_eq_true, decide_eq_true_eq] at hb
  obtain ⟨⟨⟨hx0, hy0⟩, hxw⟩, hyh⟩ := hb
  have hw : 0 < g.board.width := by omega
  have hh : 0 < g.board.height := by omega
  have hwh : (0 : Int) ≤ g.board.width * g.board.height := by positivity
  have hsz : ¬(g.board.width * g.board.height < 0) := by linarith
  have hyw : (0 : Int) ≤ seed.y * g.board.width := by positivity
  have hsneg : ¬(seed.x + seed.y * g.board.width < 0) := by linarith
  constructor
  · unfold Game.floodfill
    rw [if_neg hsz, if_neg hsneg]
    have hfreeAll : ∀ c : Coord, g.board.contains c = true →
        g.isSpaceFree
          (List.replicate (g.board.width * g.board.height).toNat true) c
          = true := by
      intro c hc
      unfold Game.isSpaceFree Game.freespaceIndex
      rw [if_pos hc]
      dsimp only
      have hci := indexNat_lt_size g c hc
      rw [List.getD_eq_getElem?_getD, List.getElem?_replicate, if_pos hci]
      rfl
    have hqcont : ∀ c ∈ [seed], g.board.contains c = true := by
      intro c hc
      rcases List.mem_singleton.1 hc with rfl
      exact hseed
    have hlen0 : ∀ c : Coord, g.board.contains c = true →
        g.indexNat c
          < (List.replicate (g.board.width * g.board.height).toNat
              (false : Bool)).length := by
      intro c hc
      rw [List.length_replicate]
      exact indexNat_lt_size g c hc
    have hinv0 : ∀ c : Coord, g.board.contains c = true →
        (List.replicate (g.board.width * g.board.height).toNat
          (false : Bool)).getD (g.indexNat c) false = true →
        ∀ d : Direction,
          g.isSpaceFree
            (List.replicate (g.board.width * g.board.height).toNat true)
            (c.neighbour d) = true →
          ((List.replicate (g.board.width * g.board.height).toNat
              (false : Bool)).getD (g.indexNat (c.neighbour d)) false = true
            ∨ c.neighbour d ∈ [seed]) := by
      intro c hc habs
      rw [getD_replicate_false] at habs
      exact absurd habs (by simp)
    have hseedV := floodfillAux_visits_queue g
      (List.replicate (g.board.width * g.board.height).toNat true)
      (List.replicate (g.board.width * g.board.height).toNat false) [seed]
      hqcont hlen0 seed (by simp)
    have hclosedV := floodfillAux_closed g
      (List.replicate (g.board.width * g.board.height).toNat true)
      (List.replicate (g.board.width * g.board.height).toNat false) [seed]
      hqcont hlen0 hinv0
    have hall := visited_all_of_closed g
      (List.replicate (g.board.width * g.board.height).toNat true)
      (floodfillAux g
        (List.replicate (g.board.width * g.board.height).toNat true)
        (List.replicate (g.board.width * g.board.height).toNat false) [seed])
      seed hseed hseedV hclosedV hfreeAll
    have hVlen : (floodfillAux g
        (List.replicate (g.board.width * g.board.height).toNat true)
        (List.replicate (g.board.width * g.board.height).toNat false)
        [seed]).length = (g.board.width * g.board.height).toNat := by
      rw [floodfillAux_length]
      exact List.length_replicate _ _
    have hallidx : ∀ i, i < (floodfillAux g
        (List.replicate (g.board.width * g.board.height).toNat true)
        (List.replicate (g.board.width * g.board.height).toNat false)
        [seed]).length →
        (floodfillAux g
          (List.replicate (g.board.width * g.board.height).toNat true)
          (List.replicate (g.board.width * g.board.height).toNat false)
          [seed]).getD i false = true := by
      intro i hi
      rw [hVlen] at hi
      obtain ⟨c, hc, hci⟩ := exists_coord_of_index g hw hh i hi
      rw [← hci]
      exact hall c hc
    rw [count_true_of_all_true _ hallidx, hVlen]
    rw [Int.toNat_of_nonneg hwh]
  · intro fs hblock
    unfold Game.floodfill
    rw [if_neg hsz, if_neg hsneg]
    have hstep : floodfillAux g fs
        (List.replicate (g.board.width * g.board.height).toNat false) [seed]
        = (List.replicate (g.board.width * g.board.height).toNat false).set
            (g.indexNat seed) true := by
      rw [floodfillAux.eq_def]
      rw [dif_neg (by simp : ¬([seed] = ([] : List Coord)))]
      rw [dif_pos (by
        rw [List.length_replicate]
        exact indexNat_lt_size g seed hseed)]
      have hpush : pushesOf g fs
          ((List.replicate (g.board.width * g.board.height).toNat false).set
            (g.indexNat ([seed] : List Coord).headI) true)
          ([seed] : List Coord).headI = [] := by
        unfold pushesOf
        rw [List.filter_eq_nil_iff]
        intro nb hnb
        rcases List.mem_map.1 hnb with ⟨d, -, rfl⟩
        rw [show (([seed] : List Coord).headI) = seed from rfl]
        rw [hblock d]
        simp
      rw [hpush]
      rw [show ([seed] : List Coord).tail ++ [] = [] from rfl]
      rw [floodfillAux.eq_def]
      rw [dif_pos rfl]
      rfl
    rw [hstep]
    rw [count_set_replicate_false _ _ (indexNat_lt_size g seed hseed)]
    rfl

/-- C8 witness: a 2×2 board — the open-board fill from `(0,0)` returns 4,
and the fill with every neighbour of the seed occupied returns 1. -/
theorem claim8_witness :
    ((Game.new [] [] [] ⟨2, 2⟩).board.contains ⟨0, 0⟩ = true)
    ∧ (Game.new [] [] [] ⟨2, 2⟩).floodfill
        (List.replicate ((Game.new [] [] [] ⟨2, 2⟩).board.width
          * (Game.new [] [] [] ⟨2, 2⟩).board.height).toNat true) ⟨0, 0⟩
        = Except.ok ((Game.new [] [] [] ⟨2, 2⟩).board.width
            * (Game.new [] [] [] ⟨2, 2⟩).board.height)
    ∧ (Game.new [] [] [] ⟨2, 2⟩).floodfill [false, false, false, false]
        ⟨0, 0⟩ = Except.ok 1 :=
  ⟨by decide, (claim8_floodfill (Game.new [] [] [] ⟨2, 2⟩) ⟨0, 0⟩
      (by decide)).1,
    (claim8_floodfill (Game.new [] [] [] ⟨2, 2⟩) ⟨0, 0⟩ (by decide)).2
      [false, false, false, false] (by intro d; cases d <;> rfl)⟩

end Strangle
